import Mathlib

/-!
A verification development for `Walmart_webscrapper.py`.

The program is shallowly embedded: Python strings become `List Char`,
Python dictionaries parsed from JSON become association lists over a
`JValue` inductive, fallible Python code (code that can raise) returns
`Option`/`Except`.  External collaborators are embedded as follows:

* `urllib.parse.urlsplit` / `urlunsplit` are translated from the CPython
  3.11 standard-library source (`urllib/parse.py`).
* `json.loads` is translated as an executable fuel-based parser of the
  JSON value grammar used by CPython's `json` module.
* BeautifulSoup is the HTML-DOM collaborator: a fetched page is a record
  carrying the raw page text together with the results of the only DOM
  queries the program performs (anchor `href`s, the `__NEXT_DATA__`
  script text, the `application/ld+json` script texts, in document
  order).
* `re.findall` for the one fixed pattern used by the program is
  translated as an explicit left-to-right scanner.

Set-off notes on modelling fidelity appear as doc comments on the
individual definitions.
-/

set_option maxRecDepth 100000

/-- Python strings are modelled as lists of characters. -/
abbrev Str := List Char

/-- ASCII lower-casing of one character, modelling `str.lower` on the
ASCII range (all strings the program lower-cases and compares are
ASCII; Unicode-only case mappings are outside the model). -/
def lowerChar (c : Char) : Char :=
  if 'A' ≤ c ∧ c ≤ 'Z' then Char.ofNat (c.toNat + 32) else c

/-- `s.lower()` character-wise. -/
def lowerStr (s : Str) : Str := s.map lowerChar

/-- `s.startswith(p)` for Python strings. -/
def pyStartsWith : Str → Str → Bool
  | _, [] => true
  | [], _ :: _ => false
  | c :: s, p :: ps => c = p && pyStartsWith s ps

/-- `hay.find(needle)`: index of the first occurrence, `none` when the
needle does not occur (Python returns `-1`). -/
def pyFind (hay needle : Str) : Option Nat :=
  if pyStartsWith hay needle then some 0
  else
    match hay with
    | [] => none
    | _ :: t => (pyFind t needle).map (· + 1)

/-- `needle in hay` for Python strings (substring containment). -/
def pyIn (needle hay : Str) : Bool := (pyFind hay needle).isSome

/-- `needle` occurs as a contiguous substring of `hay`. -/
def OccursIn (needle hay : Str) : Prop := ∃ pre post, hay = pre ++ needle ++ post

/-- `p.split(sep)[0]` for a one-character separator: everything before
the first occurrence. -/
def splitHead (sep : Char) (p : Str) : Str := p.takeWhile (· ≠ sep)

/-- `p.split('?')[0].split('#')[0]` — the naive query/fragment strip
used at the fallback sites of `get_link`. -/
def stripQF (p : Str) : Str := splitHead '#' (splitHead '?' p)

/-- `BOT_CHECK_KEYWORDS` from the source. -/
def BOT_CHECK_KEYWORDS : List Str :=
  ["are you a human".toList, "captcha".toList, "bot".toList, "please verify".toList,
   "verify you are a human".toList, "recaptcha".toList, "Access Denied".toList,
   "unusual traffic".toList]

/-- `is_bot_page`: lower-case the first 2000 characters and test every
keyword (lower-cased) for substring containment. -/
def is_bot_page (html_text : Str) : Bool :=
  let text := lowerStr (html_text.take 2000)
  BOT_CHECK_KEYWORDS.any fun kw => pyIn (lowerStr kw) text

/-- The order-preserving deduplication loop at the end of `get_link`
(`seen` set plus `deduped` list); `seen` is the accumulator. -/
def dedupe : List Str → List Str → List Str
  | [], _ => []
  | u :: rest, seen =>
    if u ∈ seen then dedupe rest seen else u :: dedupe rest (u :: seen)

/-- Index of the first occurrence of `u` in `xs` (length of `xs` when
absent); used to state first-seen ordering. -/
def firstIdx (xs : List Str) (u : Str) : Nat :=
  match xs with
  | [] => 0
  | x :: rest => if x = u then 0 else firstIdx rest u + 1

/-- JSON values as produced by `json.loads`.  Numbers are kept as a
decimal mantissa/exponent pair read off the literal; the program never
computes with numbers, it only stores them and tests truthiness. -/
inductive JValue where
  | jnull
  | jbool (b : Bool)
  | jnum (mant : Int) (exp10 : Int)
  | jstr (s : Str)
  | jarr (xs : List JValue)
  | jobj (fields : List (Str × JValue))

/-- A Python dict built by the program: an association list from keys
to JSON values. -/
abbrev RecordDict := List (Str × JValue)

deriving instance DecidableEq for Except

/-- The five components returned by `urllib.parse.urlsplit`. -/
structure SplitResult where
  scheme : Str
  netloc : Str
  path : Str
  query : Str
  fragment : Str
deriving DecidableEq

/-- `scheme_chars` from CPython `urllib/parse.py`: ASCII letters,
digits, `+`, `-`, `.`. -/
def isSchemeChar (c : Char) : Bool :=
  ('a' ≤ c && c ≤ 'z') || ('A' ≤ c && c ≤ 'Z') || ('0' ≤ c && c ≤ '9') ||
    c = '+' || c = '-' || c = '.'

/-- `url[0].isascii() and url[0].isalpha()`. -/
def isAsciiAlpha (c : Char) : Bool :=
  ('a' ≤ c && c ≤ 'z') || ('A' ≤ c && c ≤ 'Z')

/-- Removal of `_UNSAFE_URL_BYTES_TO_REMOVE` (tab, CR, LF) performed by
`urlsplit` before parsing. -/
def removeUnsafe (s : Str) : Str :=
  s.filter fun c => c ≠ '\t' && c ≠ '\r' && c ≠ '\n'

/-- Characters at which `_splitnetloc` ends the network-location part. -/
def isNetlocDelim (c : Char) : Bool := c = '/' || c = '?' || c = '#'

/-- `url.lstrip(_WHATWG_C0_CONTROL_OR_SPACE)`: drop leading characters
with code point ≤ 0x20. -/
def lstripC0 (s : Str) : Str := s.dropWhile fun c => c.toNat ≤ 32

/-- The scheme-detection step of `urlsplit`: split at the first `:`
when a scheme is present (`i > 0`, first character an ASCII letter,
all scheme characters), lower-casing it. -/
def schemeSplit (url0 : Str) : Str × Str :=
  let pre := url0.takeWhile (· ≠ ':')
  let schemeOk :=
    pre.length < url0.length && !pre.isEmpty &&
      (match pre with | c :: _ => isAsciiAlpha c | [] => false) &&
      pre.all isSchemeChar
  if schemeOk then (lowerStr pre, url0.drop (pre.length + 1)) else ([], url0)

/-- `_splitnetloc`: when the remainder starts with `//`, the netloc
runs to the first `/`, `?` or `#`. -/
def netlocSplit (u1 : Str) : Str × Str :=
  if pyStartsWith u1 "//".toList then
    ((u1.drop 2).takeWhile (fun c => !isNetlocDelim c),
     (u1.drop 2).dropWhile (fun c => !isNetlocDelim c))
  else ([], u1)

/-- `urllib.parse.urlsplit(url)` with default arguments, translated
from the CPython 3.11 source.  The modelled failure (`.error ()`) is
the `ValueError("Invalid IPv6 URL")` raised on a bracket-unbalanced
netloc.  Two further `ValueError` sites are modelled as passing: the
`_check_bracketed_host` validation of a netloc containing both
brackets, and the `_checknetloc` rejection of exotic non-ASCII netlocs
that change under NFKC normalization (every all-ASCII bracket-free
netloc passes both in CPython).  Both checks depend only on the netloc
and re-judge an unchanged netloc identically, which is all the
theorems below use. -/
def urlsplitE (raw : Str) : Except Unit SplitResult :=
  let url0 := removeUnsafe (lstripC0 raw)
  let sp := schemeSplit url0
  let np := netlocSplit sp.2
  if ('[' ∈ np.1 ∧ ']' ∉ np.1) ∨ (']' ∈ np.1 ∧ '[' ∉ np.1) then .error ()
  else
    let u3 := np.2.takeWhile (· ≠ '#')
    .ok ⟨sp.1, np.1, u3.takeWhile (· ≠ '?'), (u3.dropWhile (· ≠ '?')).drop 1,
      (np.2.dropWhile (· ≠ '#')).drop 1⟩

/-- `uses_netloc` from CPython `urllib/parse.py` (the empty scheme is a
member). -/
def usesNetloc : List Str :=
  [[], "ftp".toList, "http".toList, "gopher".toList, "nntp".toList, "telnet".toList,
   "imap".toList, "wais".toList, "file".toList, "mms".toList, "https".toList,
   "shttp".toList, "snews".toList, "prospero".toList, "rtsp".toList, "rtspu".toList,
   "rsync".toList, "svn".toList, "svn+ssh".toList, "sftp".toList, "nfs".toList,
   "git".toList, "git+ssh".toList, "ws".toList, "wss".toList]

/-- `urllib.parse.urlunsplit`, translated from the CPython 3.11
source. -/
def urlunsplit (sr : SplitResult) : Str :=
  let url := sr.path
  let url :=
    if !sr.netloc.isEmpty ||
        (!sr.scheme.isEmpty && sr.scheme ∈ usesNetloc && !pyStartsWith url "//".toList) then
      let url := if !url.isEmpty && !pyStartsWith url "/".toList then '/' :: url else url
      '/' :: '/' :: (sr.netloc ++ url)
    else url
  let url := if !sr.scheme.isEmpty then sr.scheme ++ ':' :: url else url
  let url := if !sr.query.isEmpty then url ++ '?' :: sr.query else url
  if !sr.fragment.isEmpty then url ++ '#' :: sr.fragment else url

/-- The canonical host prefix `"https://www.walmart.com"` used
throughout `get_link`. -/
def WALMART : Str := "https://www.walmart.com".toList

/-- `normalize_product_url`: split, default the scheme to `https` and
the host to `www.walmart.com`, drop query and fragment, reassemble.
`.error ()` is the `ValueError` propagating out of `urlsplit`. -/
def normalize_product_url (raw : Str) : Except Unit Str :=
  (urlsplitE raw).map fun p =>
    urlunsplit ⟨if p.scheme.isEmpty then "https".toList else p.scheme,
                if p.netloc.isEmpty then "www.walmart.com".toList else p.netloc,
                p.path, [], []⟩

/-- The argument `get_link` passes to `normalize_product_url`: the raw
`href`, domain-prefixed when it does not start with `"http"`. -/
def canonicalInput (href : Str) : Str :=
  if pyStartsWith href "http".toList then href else WALMART ++ href

/-- The `try`/`except` normalization of one anchor `href` inside
`get_link` (lines 75–78): on a `ValueError` from the parse, fall back
to the naive strip-and-prefix expression. -/
def canonicalOf (href : Str) : Str :=
  match normalize_product_url (canonicalInput href) with
  | .ok c => c
  | .error _ => WALMART ++ stripQF href

/-- Python truthiness of a JSON value (`None`, `False`, zero, and the
empty string/list/dict are falsy). -/
def JValue.pyTruthy : JValue → Bool
  | .jnull => false
  | .jbool b => b
  | .jnum m _ => m ≠ 0
  | .jstr s => !s.isEmpty
  | .jarr l => !l.isEmpty
  | .jobj f => !f.isEmpty

/-- `a or b` for Python values: `a` when truthy, else `b`. -/
def pyOr (a b : JValue) : JValue := if a.pyTruthy then a else b

/-- Lookup in a parsed dict (association list with unique keys). -/
def dlookup (fields : RecordDict) (k : Str) : Option JValue :=
  match fields with
  | [] => none
  | (k2, v) :: rest => if k2 = k then some v else dlookup rest k

/-- `d[k] = v` / dict construction with duplicate keys: replace the
value in place when the key exists, append otherwise. -/
def dictAdd (fields : RecordDict) (k : Str) (v : JValue) : RecordDict :=
  match fields with
  | [] => [(k, v)]
  | (k2, v2) :: rest => if k2 = k then (k2, v) :: rest else (k2, v2) :: dictAdd rest k v

/-- `k in d` for a Python dict. -/
def dictHasKey (fields : RecordDict) (k : Str) : Bool := (dlookup fields k).isSome

/-- `x.get(k, d)`: `none` models the `AttributeError` raised when the
receiver is not a dict. -/
def pyGetD (v : JValue) (k : Str) (d : JValue) : Option JValue :=
  match v with
  | .jobj fs => some ((dlookup fs k).getD d)
  | _ => none

/-- `x.get(k)` (default `None`). -/
def pyGetN (v : JValue) (k : Str) : Option JValue := pyGetD v k .jnull

/-- JSON insignificant whitespace (`' '`, `'\t'`, `'\n'`, `'\r'`). -/
def jsonWsChar (c : Char) : Bool := c = ' ' || c = '\t' || c = '\n' || c = '\r'

/-- The named escape sequences of JSON string literals.  `\uXXXX`
escapes are outside the model (no input in this development uses
them). -/
def escChar (c : Char) : Option Char :=
  if c = '"' then some '"'
  else if c = '\\' then some '\\'
  else if c = '/' then some '/'
  else if c = 'b' then some '\x08'
  else if c = 'f' then some '\x0c'
  else if c = 'n' then some '\n'
  else if c = 'r' then some '\r'
  else if c = 't' then some '\t'
  else none

/-- Body of a JSON string literal after the opening quote: returns the
decoded string and the input remaining after the closing quote.
Unescaped control characters are rejected (strict mode). -/
def parseStrBody : Str → Option (Str × Str)
  | [] => none
  | c :: rest =>
    if c = '"' then some ([], rest)
    else if c = '\\' then
      match rest with
      | [] => none
      | e :: rest2 =>
        match escChar e with
        | none => none
        | some ec =>
          match parseStrBody rest2 with
          | none => none
          | some (s, r) => some (ec :: s, r)
    else if c.toNat < 32 then none
    else
      match parseStrBody rest with
      | none => none
      | some (s, r) => some (c :: s, r)

def isDigitC (c : Char) : Bool := '0' ≤ c && c ≤ '9'

def digitsToNat (ds : Str) : Nat := ds.foldl (fun a c => a * 10 + (c.toNat - 48)) 0

/-- A JSON number literal (`NUMBER_RE` of CPython's `json`):
`-?(0|[1-9]\d*)(\.\d+)?([eE][-+]?\d+)?`, read into a mantissa and a
decimal exponent. -/
def parseNum (s : Str) : Option (JValue × Str) :=
  let (neg, s1) := match s with
    | c :: t => if c = '-' then (true, t) else (false, s)
    | [] => (false, s)
  let ipart := s1.takeWhile isDigitC
  if ipart.isEmpty then none
  else if 1 < ipart.length ∧ ipart.headD ' ' = '0' then none
  else
    let s2 := s1.dropWhile isDigitC
    let fpart := match s2 with
      | '.' :: t => t.takeWhile isDigitC
      | _ => []
    let hasDot := match s2 with
      | '.' :: _ => true
      | _ => false
    if hasDot ∧ fpart.isEmpty then none
    else
      let s3 := if hasDot then (s2.drop 1).dropWhile isDigitC else s2
      let hasExp := match s3 with
        | c :: _ => c = 'e' || c = 'E'
        | [] => false
      let (expSign, s4) := if hasExp then
          match s3.drop 1 with
          | '+' :: t => (1, t)
          | '-' :: t => (-1, t)
          | t => (1, t)
        else ((1 : Int), s3.drop 1)
      let epart := if hasExp then s4.takeWhile isDigitC else []
      if hasExp ∧ epart.isEmpty then none
      else
        let rest := if hasExp then s4.dropWhile isDigitC else s3
        let mant : Int := (if neg then -1 else 1) * (digitsToNat (ipart ++ fpart) : Int)
        let e10 : Int := expSign * (digitsToNat epart : Int) - (fpart.length : Int)
        some (.jnum mant e10, rest)

mutual

/-- One JSON value, fuel-bounded (the fuel chosen by `json_loads` is
ample for any input of the given length). -/
def parseVal : Nat → Str → Option (JValue × Str)
  | 0, _ => none
  | f + 1, s =>
    let s := s.dropWhile jsonWsChar
    match s with
    | [] => none
    | c :: rest =>
      if c = '"' then
        match parseStrBody rest with
        | some (str, r) => some (.jstr str, r)
        | none => none
      else if c = '\x7b' then parseObjRest f rest
      else if c = '[' then parseArrRest f rest
      else if c = 't' then
        if pyStartsWith rest "rue".toList then some (.jbool true, rest.drop 3) else none
      else if c = 'f' then
        if pyStartsWith rest "alse".toList then some (.jbool false, rest.drop 4) else none
      else if c = 'n' then
        if pyStartsWith rest "ull".toList then some (.jnull, rest.drop 3) else none
      else parseNum s

/-- Array contents after the opening bracket. -/
def parseArrRest : Nat → Str → Option (JValue × Str)
  | 0, _ => none
  | f + 1, s =>
    let s1 := s.dropWhile jsonWsChar
    match s1 with
    | ']' :: r => some (.jarr [], r)
    | _ =>
      match parseVal f s1 with
      | none => none
      | some (v, r) => parseArrMore f [v] r

/-- Further array elements: a comma then a value, or the closing
bracket. -/
def parseArrMore : Nat → List JValue → Str → Option (JValue × Str)
  | 0, _, _ => none
  | f + 1, acc, s =>
    let s1 := s.dropWhile jsonWsChar
    match s1 with
    | ']' :: r => some (.jarr acc, r)
    | ',' :: r =>
      match parseVal f r with
      | none => none
      | some (v, r2) => parseArrMore f (acc ++ [v]) r2
    | _ => none

/-- Object contents after the opening brace. -/
def parseObjRest : Nat → Str → Option (JValue × Str)
  | 0, _ => none
  | f + 1, s =>
    let s1 := s.dropWhile jsonWsChar
    match s1 with
    | '\x7d' :: r => some (.jobj [], r)
    | '"' :: r =>
      match parseStrBody r with
      | none => none
      | some (k, r2) =>
        match r2.dropWhile jsonWsChar with
        | ':' :: r3 =>
          match parseVal f r3 with
          | none => none
          | some (v, r4) => parseObjMore f [(k, v)] r4
        | _ => none
    | _ => none

/-- Further object entries: a comma then a key/value pair, or the
closing brace; a repeated key overwrites (Python dict semantics). -/
def parseObjMore : Nat → RecordDict → Str → Option (JValue × Str)
  | 0, _, _ => none
  | f + 1, acc, s =>
    let s1 := s.dropWhile jsonWsChar
    match s1 with
    | '\x7d' :: r => some (.jobj acc, r)
    | ',' :: r =>
      match r.dropWhile jsonWsChar with
      | '"' :: r2 =>
        match parseStrBody r2 with
        | none => none
        | some (k, r3) =>
          match r3.dropWhile jsonWsChar with
          | ':' :: r4 =>
            match parseVal f r4 with
            | none => none
            | some (v, r5) => parseObjMore f (dictAdd acc k v) r5
          | _ => none
      | _ => none
    | _ => none

end

/-- `json.loads`: parse one value and require only whitespace to
remain (Python raises `Extra data` otherwise). -/
def json_loads (t : Str) : Option JValue :=
  match parseVal (4 * t.length + 16) t with
  | some (v, rest) => if (rest.dropWhile jsonWsChar).isEmpty then some v else none
  | none => none

theorem sanity_lower : lowerStr "AbC".toList = "abc".toList := by decide

theorem sanity_find : pyFind "hello".toList "ll".toList = some 2 := by decide

theorem sanity_bot : is_bot_page "please VERIFY you are a human".toList = true := by decide

theorem sanity_norm :
    normalize_product_url "https://www.walmart.com/ip/Apple-iPhone/123?athbdg=L1600#rv".toList =
      .ok "https://www.walmart.com/ip/Apple-iPhone/123".toList := by decide

theorem sanity_norm_rel :
    normalize_product_url "/ip/abc".toList = .ok "https://www.walmart.com/ip/abc".toList := by
  decide

theorem sanity_norm_err :
    normalize_product_url "http://[/ip/abc".toList = .error () := by decide

theorem sanity_canonical :
    canonicalOf "/ip/abc?x=1".toList = "https://www.walmart.com/ip/abc".toList := by decide

theorem sanity_json :
    json_loads " \x7b\"a\": [1, -2.5e2, \"x\\n\", true, null]\x7d ".toList =
      some (.jobj [("a".toList, .jarr [.jnum 1 0, .jnum (-25) 1, .jstr ['x', '\n'],
        .jbool true, .jnull])]) := rfl

/-- A fetched product page, as seen through the HTML-DOM collaborator:
the raw text plus the results of the two script lookups `prod_info`
performs.  `nextData` is the text content of the
`<script id="__NEXT_DATA__">` element (`none` when the element is
absent; the `.string or .get_text()` result otherwise), `ldJson` the
text contents of the `<script type="application/ld+json">` elements in
document order. -/
structure ProductPage where
  raw : Str
  nextData : Option Str
  ldJson : List Str

/-- The failures `prod_info` can raise: the bot-challenge
`RuntimeError`, the uncaught `AttributeError` escaping strategy 2, and
the final `RuntimeError` carrying the page sample. -/
inductive PErr where
  | challenge
  | attrError
  | noData (sample : Str)
deriving DecidableEq

/-- The record literal shared by all three strategies (same keys, same
order). -/
def mkRecord (name price availability brand model features rating review_count : JValue) :
    RecordDict :=
  [("name".toList, name), ("price".toList, price), ("availability".toList, availability),
   ("brand".toList, brand), ("model".toList, model), ("features".toList, features),
   ("rating".toList, rating), ("review_count".toList, review_count)]

/-- The fixed key list of every extracted record. -/
def RECORD_KEYS : List Str :=
  ["name".toList, "price".toList, "availability".toList, "brand".toList, "model".toList,
   "features".toList, "rating".toList, "review_count".toList]

/-- `data.get("props", {}).get("pageProps", {}).get("initialData", {}).get("data", {})`. -/
def navInitialData (data : JValue) : Option JValue := do
  let props ← pyGetD data "props".toList (.jobj [])
  let pageProps ← pyGetD props "pageProps".toList (.jobj [])
  let initialData ← pyGetD pageProps "initialData".toList (.jobj [])
  pyGetD initialData "data".toList (.jobj [])

/-- The field-extraction part of `parse_next_data` (the `info = {...}`
dict literal), given the selected `product` and `reviews` values;
`none` models an `AttributeError` from a `.get` on a non-dict. -/
def s1_build (product reviews : JValue) : Option RecordDict := do
  let name ← pyGetN product "name".toList
  let priceInfo ← pyGetD product "priceInfo".toList (.jobj [])
  let currentPrice ← pyGetD priceInfo "currentPrice".toList (.jobj [])
  let price ← pyGetN currentPrice "price".toList
  let availability ← pyGetN product "availabilityStatus".toList
  let brand1 ← pyGetN product "brand".toList
  let brand2 ← pyGetN product "brandName".toList
  let model ← pyGetD product "modelNumber".toList (.jstr "N/A".toList)
  let f1 ← pyGetD product "keyProductFeatures".toList (.jarr [])
  let f2 ← pyGetD product "bulletDescriptions".toList (.jarr [])
  let r1 ← pyGetD reviews "customerRating".toList (.jnum 0 0)
  let r2 ← pyGetN product "rating".toList
  let c1 ← pyGetD product "numReviews".toList (.jnum 0 0)
  let c2 ← pyGetD product "reviewCount".toList (.jnum 0 0)
  pure (mkRecord name price availability (pyOr brand1 brand2) model (pyOr f1 f2)
    (pyOr r1 r2) (pyOr c1 c2))

/-- The `product` selection of `parse_next_data`:
`initial_data.get("product") or (initial_data.get("products") and
(initial_data.get("products")[0] if isinstance(..., list) else None))`. -/
def selectProduct (initial_data : JValue) : Option JValue := do
  let prodKey ← pyGetN initial_data "product".toList
  if prodKey.pyTruthy then pure prodKey
  else do
    let ps ← pyGetN initial_data "products".toList
    if !ps.pyTruthy then pure ps
    else
      match ps with
      | .jarr (h :: _) => pure h
      | _ => pure .jnull

/-- `parse_next_data`: parse the `__NEXT_DATA__` JSON and extract the
product fields.  `none` models any exception (`JSONDecodeError`,
`AttributeError`, the explicit `KeyError`), all of which the caller
catches uniformly. -/
def parse_next_data (script_text : Str) : Option RecordDict := do
  let data ← json_loads script_text
  let initial_data ← navInitialData data
  let product ← selectProduct initial_data
  let reviews0 ← pyGetD initial_data "reviews".toList (.jobj [])
  if !product.pyTruthy then none
  else s1_build product (pyOr reviews0 (.jobj []))

/-- Result of the ld+json strategy: a record, an uncaught
`AttributeError` (`.lower()` on a non-string `@type`, or `.get` on a
truthy non-dict `aggregateRating`), or no qualifying item. -/
inductive S2Res where
  | found (r : RecordDict)
  | crash
  | nothing

/-- `item.get("brand")` handling: a dict's `name` field, a bare
string, or `None`. -/
def brandOf (b : JValue) : JValue :=
  match b with
  | .jobj bf => (dlookup bf "name".toList).getD .jnull
  | .jstr s => .jstr s
  | _ => .jnull

/-- The record literal for one qualifying ld+json item whose
(`or`-defaulted) `aggregateRating` is a dict. -/
def s2_record (fs ags : RecordDict) : RecordDict :=
  let name := (dlookup fs "name".toList).getD .jnull
  let brand := brandOf ((dlookup fs "brand".toList).getD .jnull)
  let offers := pyOr ((dlookup fs "offers".toList).getD .jnull) (.jobj [])
  let price := match offers with
    | .jobj ofs => pyOr ((dlookup ofs "price".toList).getD .jnull)
        ((dlookup ofs "lowPrice".toList).getD .jnull)
    | _ => .jnull
  let availability := match offers with
    | .jobj ofs => (dlookup ofs "availability".toList).getD .jnull
    | _ => .jnull
  let rating := (dlookup ags "ratingValue".toList).getD .jnull
  let c1 := (dlookup ags "reviewCount".toList).getD .jnull
  let review_count := if c1.pyTruthy then c1 else (dlookup ags "reviewCount".toList).getD .jnull
  mkRecord name price availability brand
    ((dlookup fs "sku".toList).getD (.jstr "N/A".toList))
    ((dlookup fs "description".toList).getD (.jstr []))
    rating review_count

/-- The field extraction for one qualifying ld+json item (the body of
the `if t == "product" or "offers" in item:` block): the unguarded
`agg.get` calls crash with `AttributeError` when the `or`-defaulted
`aggregateRating` is a truthy non-dict. -/
def s2_build (fs : RecordDict) : S2Res :=
  match pyOr ((dlookup fs "aggregateRating".toList).getD .jnull) (.jobj []) with
  | .jobj ags => .found (s2_record fs ags)
  | _ => .crash

/-- One iteration of the inner `for item in candidates` loop of
strategy 2: `some` result when the loop returns or crashes at this
item, `none` when it falls through (`continue`). -/
def s2_item : JValue → Option S2Res
  | .jobj fs =>
    match (dlookup fs "@type".toList).getD (.jstr []) with
    | .jstr s =>
      if lowerStr s = "product".toList ∨ dictHasKey fs "offers".toList then some (s2_build fs)
      else none
    | _ => some .crash
  | _ => none

/-- The inner `for item in candidates` loop of strategy 2. -/
def s2_items : List JValue → S2Res
  | [] => .nothing
  | item :: rest =>
    match s2_item item with
    | some res => res
    | none => s2_items rest

/-- `candidates = jd if isinstance(jd, list) else [jd]`. -/
def candidatesOf : JValue → List JValue
  | .jarr l => l
  | jd => [jd]

/-- The outer `for s in soup.find_all("script", type="application/ld+json")`
loop of strategy 2: skip empty and unparseable blocks; a block whose
items neither match nor crash falls through to the next block. -/
def s2_scripts : List Str → S2Res
  | [] => .nothing
  | t :: rest =>
    if t.isEmpty then s2_scripts rest
    else
      match json_loads t with
      | none => s2_scripts rest
      | some jd =>
        match s2_items (candidatesOf jd) with
        | .found r => .found r
        | .crash => .crash
        | .nothing => s2_scripts rest

/-- The field-extraction dict literal of strategy 3, given the
selected product and the navigated `initial_data`. -/
def s3_fields (product initial_data : JValue) : Option RecordDict := do
  let name ← pyGetN product "name".toList
  let priceInfo ← pyGetD product "priceInfo".toList (.jobj [])
  let currentPrice ← pyGetD priceInfo "currentPrice".toList (.jobj [])
  let price ← pyGetN currentPrice "price".toList
  let availability ← pyGetN product "availabilityStatus".toList
  let brand ← pyGetN product "brand".toList
  let model ← pyGetD product "modelNumber".toList (.jstr "N/A".toList)
  let features ← pyGetD product "keyProductFeatures".toList (.jarr [])
  let reviews ← pyGetD initial_data "reviews".toList (.jobj [])
  let rating ← pyGetD reviews "customerRating".toList (.jnum 0 0)
  let review_count ← pyGetD product "numReviews".toList (.jnum 0 0)
  pure (mkRecord name price availability brand model features rating review_count)

/-- The field extraction of strategy 3 given the parsed candidate
blob; `none` models both a missing/falsy product and any exception
inside the `try`, all swallowed by the bare `except`. -/
def s3_build (cand : JValue) : Option RecordDict := do
  let initial_data ← navInitialData cand
  let product ← pyGetN initial_data "product".toList
  if !product.pyTruthy then none
  else s3_fields product initial_data

/-- The bounded slice strategy 3 parses: up to 500000 characters from
the `{"props"` marker, truncated at the first `</script>`. -/
def strat3_snippet (raw : Str) (idx : Nat) : Str :=
  let snippet := (raw.drop idx).take 500000
  match pyFind snippet "</script>".toList with
  | some e => snippet.take e
  | none => snippet

/-- The heuristic strategy 3: gated on the literal `"product":`
substring, locate `{"props"`, slice, parse, navigate. -/
def strat3 (raw : Str) : Option RecordDict :=
  if pyIn "\"product\":".toList raw then
    match pyFind raw "\x7b\"props\"".toList with
    | some idx =>
      match json_loads (strat3_snippet raw idx) with
      | none => none
      | some cand => s3_build cand
    | none => none
  else none

/-- Strategy 1 as dispatched inside `prod_info`: the `__NEXT_DATA__`
element must exist and its text be non-empty; any exception from
`parse_next_data` falls through. -/
def strat1 (p : ProductPage) : Option RecordDict :=
  match p.nextData with
  | some t => if t.isEmpty then none else parse_next_data t
  | none => none

/-- Python `str.strip()` whitespace (ASCII range). -/
def pyIsSpace (c : Char) : Bool :=
  c = ' ' || c = '\t' || c = '\n' || c = '\r' || c = '\x0b' || c = '\x0c'

/-- `s.strip()`. -/
def pyStrip (s : Str) : Str :=
  ((s.dropWhile pyIsSpace).reverse.dropWhile pyIsSpace).reverse

/-- `html[:1200].replace("\n", " ").strip()` — the diagnostic sample
attached to the final error. -/
def sampleOf (raw : Str) : Str :=
  pyStrip ((raw.take 1200).map fun c => if c = '\n' then ' ' else c)

/-- `prod_info` on an already-fetched page: the bot gate, then the
three strategies in order, then the sample-carrying error. -/
def prod_info (p : ProductPage) : Except PErr RecordDict :=
  if is_bot_page p.raw then .error .challenge
  else
    match strat1 p with
    | some r => .ok r
    | none =>
      match s2_scripts p.ldJson with
      | .found r => .ok r
      | .crash => .error .attrError
      | .nothing =>
        match strat3 p.raw with
        | some r => .ok r
        | none => .error (.noData (sampleOf p.raw))

/-- A concrete `__NEXT_DATA__` payload used by several witnesses. -/
def nextJsonEx : Str :=
  "\x7b\"props\": \x7b\"pageProps\": \x7b\"initialData\": \x7b\"data\": \x7b\"product\": \x7b\"name\": \"Apple iPhone\", \"priceInfo\": \x7b\"currentPrice\": \x7b\"price\": 299\x7d\x7d, \"availabilityStatus\": \"IN_STOCK\", \"brand\": \"Apple\"\x7d\x7d\x7d\x7d\x7d\x7d".toList

/-- The record strategy 1 extracts from `nextJsonEx`. -/
def recS1Ex : RecordDict :=
  mkRecord (.jstr "Apple iPhone".toList) (.jnum 299 0) (.jstr "IN_STOCK".toList)
    (.jstr "Apple".toList) (.jstr "N/A".toList) (.jarr []) .jnull (.jnum 0 0)

theorem sanity_s1 : parse_next_data nextJsonEx = some recS1Ex := rfl

/-- A fetched search page through the DOM collaborator: raw text plus
the `href` values of the `<a href=...>` elements in document order. -/
structure SearchPage where
  raw : Str
  anchors : List Str

/-- The anchor filter of `get_link`: contains `"/ip/"` and does not
lower-case-start with `"/b/"`. -/
def anchorQualifies (href : Str) : Bool :=
  pyIn "/ip/".toList href && !pyStartsWith (lowerStr href) "/b/".toList

/-- Strategy 1 of `get_link`: qualifying anchors, each normalized via
the `try`/`except` around `normalize_product_url`. -/
def structural_urls (anchors : List Str) : List Str :=
  (anchors.filter anchorQualifies).map canonicalOf

/-- Characters permitted after `/ip/` by the pattern
`[^"\'\\\s<>]+` (everything except quote, apostrophe, backslash,
whitespace, and angle brackets; `\s` modelled on the ASCII range). -/
def ipRunChar (c : Char) : Bool :=
  !(c = '"' || c = Char.ofNat 39 || c = '\\' || c = ' ' || c = '\t' || c = '\n' ||
    c = '\r' || c = '\x0b' || c = '\x0c' || c = '<' || c = '>')

/-- The capture group `(/ip/[^"\'\\\s<>]+)` at exactly this position:
the literal `/ip/` followed by a non-empty maximal run of permitted
characters.  Returns the group and the input after the match. -/
def groupAt (s : Str) : Option (Str × Str) :=
  if pyStartsWith s "/ip/".toList then
    let run := (s.drop 4).takeWhile ipRunChar
    if run.isEmpty then none
    else some ("/ip/".toList ++ run, (s.drop 4).drop run.length)
  else none

/-- One alternative of the optional prefix `(?:(?:https?:)?//[^/]+)?`:
the literal `lit` followed by a non-empty maximal run of non-`/`
characters.  (Backtracking the greedy run cannot help: the group must
start with `/`, which only the maximal run boundary provides.)
Returns the input after the prefix. -/
def prefAt (lit : Str) (s : Str) : Option Str :=
  if pyStartsWith s lit then
    let run := (s.drop lit.length).takeWhile (· ≠ '/')
    if run.isEmpty then none else some ((s.drop lit.length).drop run.length)
  else none

/-- A full-pattern match attempt at this position, trying the prefix
alternatives in the order the regex engine does (`https:`, `http:`,
no scheme, no prefix) and requiring the capture group after each. -/
def matchAt (s : Str) : Option (Str × Str) :=
  match (prefAt "https://".toList s).bind groupAt with
  | some g => some g
  | none =>
    match (prefAt "http://".toList s).bind groupAt with
    | some g => some g
    | none =>
      match (prefAt "//".toList s).bind groupAt with
      | some g => some g
      | none => groupAt s

/-- `re.findall` for the fixed pattern
`(?:(?:https?:)?//[^/]+)?(/ip/[^"\'\\\s<>]+)`: scan left to right,
collect the capture group of each non-overlapping match, resume after
each match.  Fuel is the remaining length (every step consumes at
least one character). -/
def scanIp : Nat → Str → List Str
  | 0, _ => []
  | _, [] => []
  | fuel + 1, s =>
    match matchAt s with
    | some (g, rest) => g :: scanIp fuel rest
    | none => scanIp fuel (s.drop 1)

/-- Strategy 2 of `get_link`: regex matches, query/fragment-stripped,
filtered on the (always-true) `/ip/`-prefix re-check, prefixed with
the canonical host. -/
def textual_urls (raw : Str) : List Str :=
  (scanIp (raw.length + 1) raw).filterMap fun m =>
    let p := stripQF m
    if pyStartsWith p "/ip/".toList then some (WALMART ++ p) else none

/-- The candidate list `product_urls` of `get_link` before
deduplication: anchors first, the textual fallback only when the
structural strategy produced nothing. -/
def candidate_urls (pg : SearchPage) : List Str :=
  let product_urls := structural_urls pg.anchors
  if product_urls.isEmpty then textual_urls pg.raw else product_urls

/-- The URL list `get_link` returns for an already-fetched,
non-challenge search page. -/
def get_link_urls (pg : SearchPage) : List Str :=
  dedupe (candidate_urls pg) []

/-- The inner `for u in urls` loop of `main`'s paging phase: append
unseen URLs, breaking once `max_results` is reached. -/
def add_urls (acc : List Str) : List Str → Nat → List Str
  | [], _ => acc
  | u :: us, maxR =>
    if u ∈ acc then add_urls acc us maxR
    else
      let acc2 := acc ++ [u]
      if maxR ≤ acc2.length then acc2 else add_urls acc2 us maxR

/-- The paging loop of `main`: each entry is the outcome of
`get_link` for one page (`.error` models any raised exception —
challenge page, network failure, HTTP error).  A failing page breaks
the loop; the budget check mirrors the `break` after the inner
loop. -/
def collect_pages (acc : List Str) : List (Except Unit (List Str)) → Nat → List Str
  | [], _ => acc
  | .error _ :: _, _ => acc
  | .ok urls :: rest, maxR =>
    let acc2 := add_urls acc urls maxR
    if maxR ≤ acc2.length then acc2 else collect_pages acc2 rest maxR

/-- `collected_urls` after the paging phase. -/
def collect_urls (outcomes : List (Except Unit (List Str))) (maxR : Nat) : List Str :=
  collect_pages [] outcomes maxR

/-- Whether a per-URL outcome succeeded. -/
def fetchOk (e : Except PErr RecordDict) : Bool :=
  match e with
  | .ok _ => true
  | .error _ => false

/-- The product phase of `main`: over `collected_urls[:max_results]`,
attach the source URL to each successful record
(`info["url"] = url`), skip (log-and-continue) every failure. -/
def prod_results (urls : List Str) (maxR : Nat) (fetch : Str → Except PErr RecordDict) :
    List RecordDict :=
  (urls.take maxR).foldl
    (fun res url =>
      match fetch url with
      | .ok info => res ++ [dictAdd info "url".toList (.jstr url)]
      | .error _ => res)
    []

theorem pyStartsWith_iff (s p : Str) : pyStartsWith s p = true ↔ ∃ t, s = p ++ t := by
  induction p generalizing s with
  | nil => simp [pyStartsWith]
  | cons c ps ih =>
    cases s with
    | nil => simp [pyStartsWith]
    | cons a as =>
      simp only [pyStartsWith, Bool.and_eq_true, decide_eq_true_eq, ih, List.cons_append,
        List.cons.injEq]
      constructor
      · rintro ⟨rfl, t, rfl⟩; exact ⟨t, rfl, rfl⟩
      · rintro ⟨t, rfl, rfl⟩; exact ⟨rfl, t, rfl⟩

theorem occursIn_cons {needle : Str} {c : Char} {t : Str}
    (h : ¬ pyStartsWith (c :: t) needle = true) :
    OccursIn needle (c :: t) ↔ OccursIn needle t := by
  constructor
  · rintro ⟨pre, post, heq⟩
    cases pre with
    | nil =>
      exact absurd ((pyStartsWith_iff _ _).mpr ⟨post, by simpa using heq⟩) h
    | cons d pre2 =>
      simp only [List.cons_append, List.cons.injEq] at heq
      exact ⟨pre2, post, heq.2⟩
  · rintro ⟨pre, post, heq⟩
    exact ⟨c :: pre, post, by simp [heq]⟩

theorem pyIn_iff (needle hay : Str) : pyIn needle hay = true ↔ OccursIn needle hay := by
  induction hay with
  | nil =>
    constructor
    · intro h
      cases needle with
      | nil => exact ⟨[], [], rfl⟩
      | cons a b => simp [pyIn, pyFind, pyStartsWith] at h
    · rintro ⟨pre, post, heq⟩
      have h1 : pre = [] := by cases pre <;> simp_all
      subst h1
      have h2 : needle = [] := by cases needle <;> simp_all
      simp [pyIn, pyFind, h2, pyStartsWith]
  | cons c t ih =>
    by_cases hs : pyStartsWith (c :: t) needle = true
    · refine iff_of_true (by simp [pyIn, pyFind, hs]) ?_
      obtain ⟨u, hu⟩ := (pyStartsWith_iff _ _).mp hs
      exact ⟨[], u, by simp [hu]⟩
    · have hrec : pyIn needle (c :: t) = pyIn needle t := by
        simp [pyIn, pyFind, hs]
      rw [hrec, ih, occursIn_cons hs]

theorem mem_dedupe {u : Str} : ∀ {xs seen : List Str}, u ∈ dedupe xs seen ↔ u ∈ xs ∧ u ∉ seen := by
  intro xs
  induction xs with
  | nil => intro seen; simp [dedupe]
  | cons x rest ih =>
    intro seen
    by_cases hx : x ∈ seen
    · rw [dedupe, if_pos hx, ih]
      constructor
      · rintro ⟨h1, h2⟩; exact ⟨List.mem_cons_of_mem _ h1, h2⟩
      · rintro ⟨h1, h2⟩
        rcases List.mem_cons.mp h1 with rfl | h1
        · exact absurd hx h2
        · exact ⟨h1, h2⟩
    · rw [dedupe, if_neg hx]
      constructor
      · intro h
        rcases List.mem_cons.mp h with rfl | h
        · exact ⟨List.mem_cons_self _ _, hx⟩
        · obtain ⟨h1, h2⟩ := ih.mp h
          exact ⟨List.mem_cons_of_mem _ h1, fun hc => h2 (List.mem_cons_of_mem _ hc)⟩
      · rintro ⟨h1, h2⟩
        by_cases hux : u = x
        · subst hux; exact List.mem_cons_self _ _
        · rcases List.mem_cons.mp h1 with rfl | h1
          · exact absurd rfl hux
          · exact List.mem_cons_of_mem _ (ih.mpr ⟨h1, fun hc =>
              (List.mem_cons.mp hc).elim hux h2⟩)

theorem dedupe_pairwise : ∀ (xs seen : List Str),
    (dedupe xs seen).Pairwise fun a b => firstIdx xs a < firstIdx xs b := by
  intro xs
  induction xs with
  | nil => intro seen; simp [dedupe]
  | cons x rest ih =>
    intro seen
    have step : ∀ {a : Str}, a ∈ dedupe rest (x :: seen) → a ≠ x := by
      intro a ha
      have := (mem_dedupe.mp ha).2
      exact fun hc => this (hc ▸ List.mem_cons_self x seen)
    by_cases hx : x ∈ seen
    · rw [dedupe, if_pos hx]
      refine (ih seen).imp_of_mem ?_
      intro a b ha hb hlt
      have hax : a ≠ x := fun hc => (mem_dedupe.mp ha).2 (hc ▸ hx)
      have hbx : b ≠ x := fun hc => (mem_dedupe.mp hb).2 (hc ▸ hx)
      simpa [firstIdx, (Ne.symm hax), (Ne.symm hbx)] using Nat.succ_lt_succ hlt
    · rw [dedupe, if_neg hx]
      refine List.Pairwise.cons ?_ ?_
      · intro b hb
        have hbx := step hb
        simp [firstIdx, Ne.symm hbx]
      · refine (ih (x :: seen)).imp_of_mem ?_
        intro a b ha hb hlt
        have hax := step ha
        have hbx := step hb
        simpa [firstIdx, Ne.symm hax, Ne.symm hbx] using Nat.succ_lt_succ hlt

theorem dedupe_nodup (xs seen : List Str) : (dedupe xs seen).Nodup := by
  refine (dedupe_pairwise xs seen).imp ?_
  intro a b hlt
  exact fun hc => absurd (hc ▸ hlt) (lt_irrefl _)


theorem occursIn_subset {needle hay : Str} (h : OccursIn needle hay) :
    ∀ c ∈ needle, c ∈ hay := by
  rintro c hc
  obtain ⟨pre, post, rfl⟩ := h
  exact List.mem_append.mpr (Or.inl (List.mem_append.mpr (Or.inr hc)))

/-- A page whose first 2000 characters contain a challenge phrase in
mixed case. -/
def botPageEarly : Str :=
  "<html>PLeaSe VeRiFY yOu arE A huMan</html>".toList ++ List.replicate 2000 'z'

/-- The same page with every challenge phrase pushed past character
2000. -/
def botPageLate : Str :=
  "<html>".toList ++ (List.replicate 2000 'z' ++ "PLeaSe VeRiFY yOu arE A huMan</html>".toList)

theorem botPageEarly_take_raw :
    botPageEarly.take 2000 =
      "<html>PLeaSe VeRiFY yOu arE A huMan</html>".toList ++ List.replicate 1958 'z' := by
  have hlen : ("<html>PLeaSe VeRiFY yOu arE A huMan</html>".toList).length = 42 := by decide
  rw [botPageEarly, List.take_append_eq_append_take,
    List.take_of_length_le (by rw [hlen]; norm_num), hlen, List.take_replicate]
  norm_num

theorem botPageEarly_take :
    lowerStr (botPageEarly.take 2000) =
      "<html>please verify you are a human</html>".toList ++ List.replicate 1958 'z' := by
  rw [botPageEarly_take_raw, lowerStr, List.map_append, List.map_replicate]
  congr 1

theorem botPageLate_take_raw :
    botPageLate.take 2000 = "<html>".toList ++ List.replicate 1994 'z' := by
  have hlen : ("<html>".toList).length = 6 := by decide
  rw [botPageLate, List.take_append_eq_append_take,
    List.take_of_length_le (by rw [hlen]; norm_num), hlen,
    List.take_append_eq_append_take, List.take_replicate]
  norm_num

theorem botPageLate_take :
    lowerStr (botPageLate.take 2000) = "<html>".toList ++ List.replicate 1994 'z' := by
  rw [botPageLate_take_raw, lowerStr, List.map_append, List.map_replicate]
  congr 1

theorem botPageLate_chars :
    ∀ c ∈ lowerStr (botPageLate.take 2000), c ∈ "<html>z".toList := by
  intro c hc
  rw [botPageLate_take] at hc
  rcases List.mem_append.mp hc with h | h
  · have hsub : ("<html>".toList : List Char) ⊆ "<html>z".toList := by decide
    exact hsub h
  · rw [List.eq_of_mem_replicate h]; decide

/-- C8: `is_bot_page(pageText)` returns `true` iff one of the fixed
challenge phrases occurs case-insensitively as a substring of the
first 2000 characters of the page; in particular it is `true` for a
page whose first 2000 characters contain a mixed-case
`"PLeaSe VeRiFY yOu arE A huMan"`, and `false` for an otherwise
identical page whose indicator phrases all occur after character
2000. -/
theorem c8_bot_challenge_prefix :
    (∀ t : Str, is_bot_page t = true ↔
      ∃ kw ∈ BOT_CHECK_KEYWORDS, OccursIn (lowerStr kw) (lowerStr (t.take 2000))) ∧
    is_bot_page botPageEarly = true ∧ is_bot_page botPageLate = false := by
  have hiff : ∀ t : Str, is_bot_page t = true ↔
      ∃ kw ∈ BOT_CHECK_KEYWORDS, OccursIn (lowerStr kw) (lowerStr (t.take 2000)) := by
    intro t
    simp only [is_bot_page, List.any_eq_true]
    constructor
    · rintro ⟨kw, hkw, h⟩
      exact ⟨kw, hkw, (pyIn_iff _ _).mp h⟩
    · rintro ⟨kw, hkw, h⟩
      exact ⟨kw, hkw, (pyIn_iff _ _).mpr h⟩
  refine ⟨hiff, ?_, ?_⟩
  · refine (hiff botPageEarly).mpr ⟨"please verify".toList, by decide, ?_⟩
    rw [botPageEarly_take]
    refine ⟨"<html>".toList, " you are a human</html>".toList ++ List.replicate 1958 'z', ?_⟩
    rw [show lowerStr "please verify".toList = "please verify".toList from rfl]
    simp only [← List.append_assoc]
    congr 1
  · rw [← Bool.not_eq_true]
    intro hc
    obtain ⟨kw, hkw, hocc⟩ := (hiff botPageLate).mp hc
    have hsub := occursIn_subset hocc
    have hchars := botPageLate_chars
    fin_cases hkw
    · exact absurd (hchars _ (hsub 'a' (by decide))) (by decide)
    · exact absurd (hchars _ (hsub 'a' (by decide))) (by decide)
    · exact absurd (hchars _ (hsub 'b' (by decide))) (by decide)
    · exact absurd (hchars _ (hsub 'a' (by decide))) (by decide)
    · exact absurd (hchars _ (hsub 'a' (by decide))) (by decide)
    · exact absurd (hchars _ (hsub 'a' (by decide))) (by decide)
    · exact absurd (hchars _ (hsub 'a' (by decide))) (by decide)
    · exact absurd (hchars _ (hsub 'a' (by decide))) (by decide)

theorem char_le_iff {a b : Char} : a ≤ b ↔ a.toNat ≤ b.toNat := by
  simp [Char.le_def, UInt32.le_def, BitVec.le_def, Char.toNat, UInt32.toNat]

theorem char_eq_iff {a b : Char} : a = b ↔ a.toNat = b.toNat := by
  constructor
  · intro h; rw [h]
  · intro h; exact Char.ext (UInt32.ext h)

theorem toNat_ofNat_valid {n : Nat} (h : n < 55296) : (Char.ofNat n).toNat = n := by
  rw [Char.ofNat, dif_pos (Or.inl h)]
  rfl

theorem lowerChar_toNat (c : Char) :
    (¬('A' ≤ c ∧ c ≤ 'Z') ∧ lowerChar c = c) ∨
      (65 ≤ c.toNat ∧ c.toNat ≤ 90 ∧ (lowerChar c).toNat = c.toNat + 32) := by
  by_cases h : 'A' ≤ c ∧ c ≤ 'Z'
  · right
    have h1 := char_le_iff.mp h.1
    have h2 := char_le_iff.mp h.2
    have hA : ('A' : Char).toNat = 65 := rfl
    have hZ : ('Z' : Char).toNat = 90 := rfl
    rw [hA] at h1
    rw [hZ] at h2
    refine ⟨h1, h2, ?_⟩
    rw [lowerChar, if_pos h, toNat_ofNat_valid (by omega)]
  · left
    exact ⟨h, by rw [lowerChar, if_neg h]⟩

theorem lowerChar_cases (c : Char) :
    lowerChar c = c ∨
      (65 ≤ c.toNat ∧ c.toNat ≤ 90 ∧ 97 ≤ (lowerChar c).toNat ∧ (lowerChar c).toNat ≤ 122 ∧
        (lowerChar c).toNat = c.toNat + 32) := by
  rcases lowerChar_toNat c with ⟨_, h⟩ | ⟨h1, h2, h3⟩
  · exact Or.inl h
  · exact Or.inr ⟨h1, h2, by omega, by omega, h3⟩

theorem lowerChar_fix {c : Char} (h : ¬(65 ≤ c.toNat ∧ c.toNat ≤ 90)) : lowerChar c = c := by
  rcases lowerChar_toNat c with ⟨_, heq⟩ | ⟨h1, h2, _⟩
  · exact heq
  · exact absurd ⟨h1, h2⟩ h

theorem lowerChar_idem (c : Char) : lowerChar (lowerChar c) = lowerChar c := by
  rcases lowerChar_cases c with h | ⟨_, _, h1, h2, _⟩
  · rw [h]
    exact h
  · exact lowerChar_fix (by omega)

theorem lowerStr_idem (s : Str) : lowerStr (lowerStr s) = lowerStr s := by
  rw [lowerStr, lowerStr, List.map_map]
  exact List.map_congr_left fun c _ => lowerChar_idem c

/-- `isSchemeChar` as arithmetic on the code point. -/
theorem isSchemeChar_iff {c : Char} : isSchemeChar c = true ↔
    (97 ≤ c.toNat ∧ c.toNat ≤ 122) ∨ (65 ≤ c.toNat ∧ c.toNat ≤ 90) ∨
    (48 ≤ c.toNat ∧ c.toNat ≤ 57) ∨ c.toNat = 43 ∨ c.toNat = 45 ∨ c.toNat = 46 := by
  simp only [isSchemeChar, Bool.or_eq_true, Bool.and_eq_true, decide_eq_true_eq, char_le_iff,
    char_eq_iff, show ('a' : Char).toNat = 97 from rfl, show ('z' : Char).toNat = 122 from rfl,
    show ('A' : Char).toNat = 65 from rfl, show ('Z' : Char).toNat = 90 from rfl,
    show ('0' : Char).toNat = 48 from rfl, show ('9' : Char).toNat = 57 from rfl,
    show ('+' : Char).toNat = 43 from rfl, show ('-' : Char).toNat = 45 from rfl,
    show ('.' : Char).toNat = 46 from rfl]
  tauto

/-- `isAsciiAlpha` as arithmetic on the code point. -/
theorem isAsciiAlpha_iff {c : Char} : isAsciiAlpha c = true ↔
    (97 ≤ c.toNat ∧ c.toNat ≤ 122) ∨ (65 ≤ c.toNat ∧ c.toNat ≤ 90) := by
  simp only [isAsciiAlpha, Bool.or_eq_true, Bool.and_eq_true, decide_eq_true_eq, char_le_iff,
    show ('a' : Char).toNat = 97 from rfl, show ('z' : Char).toNat = 122 from rfl,
    show ('A' : Char).toNat = 65 from rfl, show ('Z' : Char).toNat = 90 from rfl]

theorem isSchemeChar_lowerChar {c : Char} (h : isSchemeChar c = true) :
    isSchemeChar (lowerChar c) = true := by
  rcases lowerChar_cases c with heq | ⟨_, _, h1, h2, _⟩
  · rwa [heq]
  · exact isSchemeChar_iff.mpr (Or.inl ⟨h1, h2⟩)

theorem isAsciiAlpha_lowerChar {c : Char} (h : isAsciiAlpha c = true) :
    isAsciiAlpha (lowerChar c) = true := by
  rcases lowerChar_cases c with heq | ⟨_, _, h1, h2, _⟩
  · rwa [heq]
  · exact isAsciiAlpha_iff.mpr (Or.inl ⟨h1, h2⟩)


theorem mem_takeWhile {p : Char → Bool} {c : Char} :
    ∀ {l : Str}, c ∈ l.takeWhile p → p c = true ∧ c ∈ l := by
  intro l
  induction l with
  | nil => intro h; simp [List.takeWhile] at h
  | cons a t ih =>
    intro h
    rw [List.takeWhile_cons] at h
    by_cases hp : p a
    · rw [if_pos hp] at h
      rcases List.mem_cons.mp h with rfl | h
      · exact ⟨hp, List.mem_cons_self _ _⟩
      · obtain ⟨h1, h2⟩ := ih h
        exact ⟨h1, List.mem_cons_of_mem _ h2⟩
    · rw [if_neg hp] at h
      simp at h

theorem takeWhile_append_sat {p : Char → Bool} {a : Str} {c : Char} {b : Str}
    (ha : ∀ x ∈ a, p x = true) (hc : p c = false) :
    (a ++ c :: b).takeWhile p = a := by
  induction a with
  | nil => simp [List.takeWhile_cons, hc]
  | cons x t ih =>
    rw [List.cons_append, List.takeWhile_cons, if_pos (ha x (List.mem_cons_self _ _))]
    rw [ih fun y hy => ha y (List.mem_cons_of_mem _ hy)]

theorem dropWhile_append_sat {p : Char → Bool} {a : Str} {c : Char} {b : Str}
    (ha : ∀ x ∈ a, p x = true) (hc : p c = false) :
    (a ++ c :: b).dropWhile p = c :: b := by
  induction a with
  | nil => simp [List.dropWhile_cons, hc]
  | cons x t ih =>
    rw [List.cons_append, List.dropWhile_cons, if_pos (ha x (List.mem_cons_self _ _))]
    exact ih fun y hy => ha y (List.mem_cons_of_mem _ hy)

theorem takeWhile_all_sat {p : Char → Bool} {a : Str} (ha : ∀ x ∈ a, p x = true) :
    a.takeWhile p = a := by
  induction a with
  | nil => rfl
  | cons x t ih =>
    rw [List.takeWhile_cons, if_pos (ha x (List.mem_cons_self _ _))]
    rw [ih fun y hy => ha y (List.mem_cons_of_mem _ hy)]

theorem dropWhile_all_sat {p : Char → Bool} {a : Str} (ha : ∀ x ∈ a, p x = true) :
    a.dropWhile p = [] := by
  induction a with
  | nil => rfl
  | cons x t ih =>
    rw [List.dropWhile_cons, if_pos (ha x (List.mem_cons_self _ _))]
    exact ih fun y hy => ha y (List.mem_cons_of_mem _ hy)

theorem schemeSplit_cases (url0 : Str) :
    schemeSplit url0 = ([], url0) ∨
    ∃ pre, pre ≠ [] ∧ pre.all isSchemeChar = true ∧
      (∃ c rest, pre = c :: rest ∧ isAsciiAlpha c = true) ∧
      schemeSplit url0 = (lowerStr pre, url0.drop (pre.length + 1)) := by
  simp only [schemeSplit]
  split
  · next h =>
    right
    simp only [Bool.and_eq_true] at h
    obtain ⟨⟨⟨_, hne⟩, hm⟩, hall⟩ := h
    refine ⟨url0.takeWhile (· ≠ ':'), ?_, hall, ?_, rfl⟩
    · intro hnil
      rw [hnil] at hne
      simp at hne
    · cases hpre : url0.takeWhile (· ≠ ':') with
      | nil => rw [hpre] at hm; simp at hm
      | cons c rest =>
        rw [hpre] at hm
        exact ⟨c, rest, rfl, hm⟩
  · left; rfl

theorem netlocSplit_cases (u1 : Str) :
    netlocSplit u1 = ([], u1) ∨
    netlocSplit u1 = ((u1.drop 2).takeWhile (fun c => !isNetlocDelim c),
      (u1.drop 2).dropWhile (fun c => !isNetlocDelim c)) := by
  simp only [netlocSplit]
  split
  · right; rfl
  · left; rfl

theorem schemeSplit_snd_subset (url0 : Str) : ∀ c ∈ (schemeSplit url0).2, c ∈ url0 := by
  rcases schemeSplit_cases url0 with h | ⟨pre, _, _, _, h⟩ <;> rw [h] <;> intro c hc
  · exact hc
  · exact List.drop_subset _ _ hc

theorem netlocSplit_fst (u1 : Str) :
    ∀ c ∈ (netlocSplit u1).1, isNetlocDelim c = false ∧ c ∈ u1 := by
  rcases netlocSplit_cases u1 with h | h <;> rw [h] <;> intro c hc
  · simp at hc
  · obtain ⟨h1, h2⟩ := mem_takeWhile hc
    exact ⟨by simpa using h1, List.drop_subset _ _ h2⟩

theorem netlocSplit_snd_subset (u1 : Str) : ∀ c ∈ (netlocSplit u1).2, c ∈ u1 := by
  rcases netlocSplit_cases u1 with h | h <;> rw [h] <;> intro c hc
  · exact hc
  · exact List.drop_subset _ _ ((List.dropWhile_sublist _).subset hc)

theorem mem_removeUnsafe {c : Char} {s : Str} (h : c ∈ removeUnsafe s) :
    c ≠ '\t' ∧ c ≠ '\r' ∧ c ≠ '\n' := by
  have := (List.mem_filter.mp h).2
  simp only [Bool.and_eq_true, decide_eq_true_eq] at this
  exact ⟨this.1.1, this.1.2, this.2⟩

theorem urlsplit_ok_inv {raw : Str} {p : SplitResult} (h : urlsplitE raw = .ok p) :
    (∀ c ∈ p.scheme, isSchemeChar c = true ∧ lowerChar c = c) ∧
    (p.scheme = [] ∨ ∃ c rest, p.scheme = c :: rest ∧ isAsciiAlpha c = true) ∧
    (∀ c ∈ p.netloc, isNetlocDelim c = false ∧ c ≠ '\t' ∧ c ≠ '\r' ∧ c ≠ '\n') ∧
    ¬(('[' ∈ p.netloc ∧ ']' ∉ p.netloc) ∨ (']' ∈ p.netloc ∧ '[' ∉ p.netloc)) ∧
    (∀ c ∈ p.path, c ≠ '?' ∧ c ≠ '#' ∧ c ≠ '\t' ∧ c ≠ '\r' ∧ c ≠ '\n') := by
  simp only [urlsplitE] at h
  split at h
  · exact absurd h (by simp)
  next hbr =>
    obtain rfl : _ = p := by
      injection h
    refine ⟨?_, ?_, ?_, by simpa using hbr, ?_⟩
    · intro c hc
      rcases schemeSplit_cases (removeUnsafe (lstripC0 raw)) with hs | ⟨pre, _, hall, _, hs⟩ <;>
        rw [hs] at hc
      · simp at hc
      · simp only [lowerStr, List.mem_map] at hc
        obtain ⟨d, hd, rfl⟩ := hc
        have hds : isSchemeChar d = true := by
          have := List.all_eq_true.mp hall d hd
          simpa using this
        exact ⟨isSchemeChar_lowerChar hds, lowerChar_idem d⟩
    · rcases schemeSplit_cases (removeUnsafe (lstripC0 raw)) with hs | ⟨pre, _, _, ⟨c, rest, hpre, hca⟩, hs⟩ <;>
        rw [hs]
      · exact Or.inl rfl
      · right
        exact ⟨lowerChar c, lowerStr rest, by rw [hpre]; rfl, isAsciiAlpha_lowerChar hca⟩
    · intro c hc
      obtain ⟨h1, h2⟩ := netlocSplit_fst _ _ hc
      have h3 := schemeSplit_snd_subset _ _ h2
      exact ⟨h1, mem_removeUnsafe h3⟩
    · intro c hc
      obtain ⟨hq, hc2⟩ := mem_takeWhile hc
      obtain ⟨hh, hc3⟩ := mem_takeWhile hc2
      have h4 := netlocSplit_snd_subset _ _ hc3
      have h5 := schemeSplit_snd_subset _ _ h4
      refine ⟨by simpa using hq, by simpa using hh, mem_removeUnsafe h5⟩

theorem isSchemeChar_ne {c : Char} (h : isSchemeChar c = true) :
    c ≠ '?' ∧ c ≠ '#' ∧ c ≠ ':' ∧ c ≠ '/' ∧ c ≠ '\t' ∧ c ≠ '\r' ∧ c ≠ '\n' ∧
      32 < c.toNat := by
  have hn := isSchemeChar_iff.mp h
  refine ⟨?_, ?_, ?_, ?_, ?_, ?_, ?_, by omega⟩ <;>
    (intro hc; rw [hc] at hn; revert hn; decide)

theorem isNetlocDelim_false_ne {c : Char} (h : isNetlocDelim c = false) :
    c ≠ '/' ∧ c ≠ '?' ∧ c ≠ '#' := by
  simp only [isNetlocDelim, Bool.or_eq_false_iff, decide_eq_false_iff_not] at h
  exact ⟨h.1.1, h.1.2, h.2⟩

theorem except_map_ok {α β γ : Type} {f : β → γ} {x : Except α β} {y : γ}
    (h : x.map f = .ok y) : ∃ b, x = .ok b ∧ y = f b := by
  cases x with
  | error e => simp [Except.map] at h
  | ok b =>
    refine ⟨b, rfl, ?_⟩
    simpa [Except.map] using h.symm

/-- The scheme actually used by `normalize_product_url`. -/
def defScheme (s : Str) : Str := if s.isEmpty then "https".toList else s

/-- The netloc actually used by `normalize_product_url`. -/
def defNetloc (n : Str) : Str := if n.isEmpty then "www.walmart.com".toList else n

theorem normalize_ok_eq {raw y : Str} (h : normalize_product_url raw = .ok y) :
    ∃ p, urlsplitE raw = .ok p ∧
      y = urlunsplit ⟨defScheme p.scheme, defNetloc p.netloc, p.path, [], []⟩ := by
  obtain ⟨p, hp, hy⟩ := except_map_ok h
  exact ⟨p, hp, by rw [hy]; rfl⟩

/-- The `if url and url[:1] != '/'` adjustment inside `urlunsplit`. -/
def pathAdjust (pa : Str) : Str :=
  if !pa.isEmpty && !pyStartsWith pa "/".toList then '/' :: pa else pa

theorem urlunsplit_shape (c : Char) (s2 : Str) (d : Char) (n2 : Str) (pa : Str) :
    urlunsplit ⟨c :: s2, d :: n2, pa, [], []⟩ =
      (c :: s2) ++ ':' :: '/' :: '/' :: ((d :: n2) ++ pathAdjust pa) := rfl

theorem defScheme_facts (s : Str) (hok : ∀ c ∈ s, isSchemeChar c = true ∧ lowerChar c = c)
    (halpha : s = [] ∨ ∃ c rest, s = c :: rest ∧ isAsciiAlpha c = true) :
    ∃ c rest, defScheme s = c :: rest ∧ isAsciiAlpha c = true ∧
      (∀ x ∈ defScheme s, isSchemeChar x = true ∧ lowerChar x = x) := by
  rcases halpha with rfl | ⟨c, rest, rfl, hca⟩
  · refine ⟨'h', "ttps".toList, rfl, by decide, ?_⟩
    intro x hx
    have hx2 : x ∈ ['h', 't', 't', 'p', 's'] := hx
    fin_cases hx2 <;> exact ⟨by decide, by decide⟩
  · refine ⟨c, rest, rfl, hca, ?_⟩
    intro x hx
    rw [show defScheme (c :: rest) = c :: rest from rfl] at hx
    exact hok x hx

theorem defNetloc_facts (n : Str)
    (hok : ∀ c ∈ n, isNetlocDelim c = false ∧ c ≠ '\t' ∧ c ≠ '\r' ∧ c ≠ '\n')
    (hbr : ¬(('[' ∈ n ∧ ']' ∉ n) ∨ (']' ∈ n ∧ '[' ∉ n))) :
    ∃ d n2, defNetloc n = d :: n2 ∧
      (∀ x ∈ defNetloc n, isNetlocDelim x = false ∧ x ≠ '\t' ∧ x ≠ '\r' ∧ x ≠ '\n') ∧
      ¬(('[' ∈ defNetloc n ∧ ']' ∉ defNetloc n) ∨ (']' ∈ defNetloc n ∧ '[' ∉ defNetloc n)) := by
  cases n with
  | nil =>
    refine ⟨'w', "ww.walmart.com".toList, rfl, ?_, by decide⟩
    intro x hx
    have hx2 : x ∈ ['w', 'w', 'w', '.', 'w', 'a', 'l', 'm', 'a', 'r', 't', '.', 'c', 'o', 'm'] := hx
    fin_cases hx2 <;> exact ⟨by decide, by decide, by decide, by decide⟩
  | cons a t =>
    refine ⟨a, t, rfl, ?_, ?_⟩
    · intro x hx
      rw [show defNetloc (a :: t) = a :: t from rfl] at hx
      exact hok x hx
    · simpa [show defNetloc (a :: t) = a :: t from rfl] using hbr

theorem mem_pathAdjust {c : Char} {pa : Str} (h : c ∈ pathAdjust pa) : c = '/' ∨ c ∈ pa := by
  rw [pathAdjust] at h
  split at h
  · rcases List.mem_cons.mp h with rfl | h
    · exact Or.inl rfl
    · exact Or.inr h
  · exact Or.inr h

theorem normalize_ok_chars {raw y : Str} (h : normalize_product_url raw = .ok y) :
    ∀ c ∈ y, c ≠ '?' ∧ c ≠ '#' := by
  obtain ⟨p, hp, hy⟩ := normalize_ok_eq h
  obtain ⟨hsch, halpha, hnet, hbr, hpath⟩ := urlsplit_ok_inv hp
  obtain ⟨c0, s2, hS, _, hSok⟩ := defScheme_facts _ hsch halpha
  obtain ⟨d0, n2, hN, hNok, _⟩ := defNetloc_facts _ hnet hbr
  rw [hy, hS, hN, urlunsplit_shape]
  intro c hc
  rcases List.mem_append.mp hc with hc | hc
  · rw [← hS] at hc
    obtain ⟨h1, _⟩ := hSok c hc
    have := isSchemeChar_ne h1
    exact ⟨this.1, this.2.1⟩
  · rcases List.mem_cons.mp hc with rfl | hc
    · exact ⟨by decide, by decide⟩
    · rcases List.mem_cons.mp hc with rfl | hc
      · exact ⟨by decide, by decide⟩
      · rcases List.mem_cons.mp hc with rfl | hc
        · exact ⟨by decide, by decide⟩
        · rcases List.mem_append.mp hc with hc | hc
          · rw [← hN] at hc
            obtain ⟨h1, _⟩ := hNok c hc
            have := isNetlocDelim_false_ne h1
            exact ⟨this.2.1, this.2.2⟩
          · rcases mem_pathAdjust hc with rfl | hc
            · exact ⟨by decide, by decide⟩
            · obtain ⟨h1, h2, _⟩ := hpath c hc
              exact ⟨h1, h2⟩

theorem isAsciiAlpha_gt32 {c : Char} (h : isAsciiAlpha c = true) : 32 < c.toNat := by
  have := isAsciiAlpha_iff.mp h
  omega

theorem pyStartsWith_single {c d : Char} {t : Str} (h : pyStartsWith (c :: t) [d] = true) :
    c = d := by
  simp only [pyStartsWith, Bool.and_eq_true, decide_eq_true_eq] at h
  exact h.1

theorem pathAdjust_cases (pa : Str) : pathAdjust pa = [] ∨ ∃ t, pathAdjust pa = '/' :: t := by
  rw [pathAdjust]
  split
  · exact Or.inr ⟨pa, rfl⟩
  · next hcond =>
    cases pa with
    | nil => exact Or.inl rfl
    | cons c t =>
      right
      simp only [List.isEmpty_cons, Bool.not_false, Bool.true_and, Bool.not_eq_true,
        Bool.not_eq_eq_eq_not, Bool.not_true, Bool.not_eq_false] at hcond
      have : c = '/' := pyStartsWith_single hcond
      exact ⟨t, by rw [this]⟩

theorem pyStartsWith_nil (s : Str) : pyStartsWith s [] = true := by
  cases s <;> rfl

theorem pathAdjust_slash (t : Str) : pathAdjust ('/' :: t) = '/' :: t := by
  have h1 : pyStartsWith ('/' :: t) ['/'] = true := by
    cases t <;> rfl
  rw [pathAdjust, if_neg (by simp [h1])]

theorem pathAdjust_fix {pa : Str} : pathAdjust (pathAdjust pa) = pathAdjust pa := by
  rcases pathAdjust_cases pa with h | ⟨t, h⟩ <;> rw [h]
  · rfl
  · exact pathAdjust_slash t

theorem lowerStr_fix {s : Str} (h : ∀ c ∈ s, lowerChar c = c) : lowerStr s = s := by
  rw [lowerStr]
  conv_rhs => rw [← List.map_id s]
  exact List.map_congr_left fun c hc => h c hc

theorem lstripC0_cons {c : Char} {t : Str} (h : 32 < c.toNat) : lstripC0 (c :: t) = c :: t := by
  rw [lstripC0, List.dropWhile_cons, if_neg (by simp; omega)]

theorem pyStartsWith_slash2 (r : Str) : pyStartsWith ('/' :: '/' :: r) "//".toList = true := by
  cases r <;> rfl

/-- Re-parsing a reconstructed URL of the shape
`scheme ++ ":" ++ "//" ++ netloc ++ adjusted-path` returns it
unchanged: the key step of the idempotence proof. -/
theorem normalize_reparse (S N PA : Str)
    (hShead : ∃ c rest, S = c :: rest ∧ isAsciiAlpha c = true)
    (hSok : ∀ c ∈ S, isSchemeChar c = true ∧ lowerChar c = c)
    (hNne : N ≠ [])
    (hNok : ∀ c ∈ N, isNetlocDelim c = false ∧ c ≠ '\t' ∧ c ≠ '\r' ∧ c ≠ '\n')
    (hNbr : ¬(('[' ∈ N ∧ ']' ∉ N) ∨ (']' ∈ N ∧ '[' ∉ N)))
    (hPA : PA = [] ∨ ∃ t, PA = '/' :: t)
    (hPAok : ∀ c ∈ PA, c ≠ '?' ∧ c ≠ '#' ∧ c ≠ '\t' ∧ c ≠ '\r' ∧ c ≠ '\n') :
    normalize_product_url (S ++ ':' :: '/' :: '/' :: (N ++ PA)) =
      .ok (S ++ ':' :: '/' :: '/' :: (N ++ PA)) := by
  obtain ⟨c0, s2, rfl, hSa⟩ := hShead
  cases N with
  | nil => exact absurd rfl hNne
  | cons d0 n2 =>
  have step1 : lstripC0 ((c0 :: s2) ++ ':' :: '/' :: '/' :: ((d0 :: n2) ++ PA)) =
      (c0 :: s2) ++ ':' :: '/' :: '/' :: ((d0 :: n2) ++ PA) := by
    rw [List.cons_append]
    exact lstripC0_cons (isAsciiAlpha_gt32 hSa)
  have step2 : removeUnsafe ((c0 :: s2) ++ ':' :: '/' :: '/' :: ((d0 :: n2) ++ PA)) =
      (c0 :: s2) ++ ':' :: '/' :: '/' :: ((d0 :: n2) ++ PA) := by
    rw [removeUnsafe, List.filter_eq_self]
    intro a ha
    have hane : a ≠ '\t' ∧ a ≠ '\r' ∧ a ≠ '\n' := by
      rcases List.mem_append.mp ha with ha | ha
      · have := isSchemeChar_ne (hSok a ha).1
        exact ⟨this.2.2.2.2.1, this.2.2.2.2.2.1, this.2.2.2.2.2.2.1⟩
      · rcases List.mem_cons.mp ha with rfl | ha
        · exact ⟨by decide, by decide, by decide⟩
        · rcases List.mem_cons.mp ha with rfl | ha
          · exact ⟨by decide, by decide, by decide⟩
          · rcases List.mem_cons.mp ha with rfl | ha
            · exact ⟨by decide, by decide, by decide⟩
            · rcases List.mem_append.mp ha with ha | ha
              · exact (hNok a ha).2
              · exact (hPAok a ha).2.2
    simp [hane.1, hane.2.1, hane.2.2]
  have hallS : (c0 :: s2).all isSchemeChar = true := by
    rw [List.all_eq_true]
    intro x hx
    exact (hSok x hx).1
  have hneS : ∀ x ∈ c0 :: s2, (fun c => decide (c ≠ ':')) x = true := by
    intro x hx
    have := (isSchemeChar_ne (hSok x hx).1).2.2.1
    simpa using this
  have hpre : ((c0 :: s2) ++ ':' :: '/' :: '/' :: ((d0 :: n2) ++ PA)).takeWhile (· ≠ ':') =
      c0 :: s2 :=
    takeWhile_append_sat hneS (by decide)
  have step3 : schemeSplit ((c0 :: s2) ++ ':' :: '/' :: '/' :: ((d0 :: n2) ++ PA)) =
      (c0 :: s2, '/' :: '/' :: ((d0 :: n2) ++ PA)) := by
    have hlen : (c0 :: s2).length <
        ((c0 :: s2) ++ ':' :: '/' :: '/' :: ((d0 :: n2) ++ PA)).length := by
      rw [List.length_append]
      simp
    have hdrop : ((c0 :: s2) ++ ':' :: '/' :: '/' :: ((d0 :: n2) ++ PA)).drop
        ((c0 :: s2).length + 1) = '/' :: '/' :: ((d0 :: n2) ++ PA) := by
      rw [List.append_cons,
        show (c0 :: s2).length + 1 = ((c0 :: s2) ++ [':']).length by simp]
      exact List.drop_left _ _
    simp only [schemeSplit, hpre]
    rw [if_pos]
    · rw [hdrop, lowerStr_fix fun c hc => (hSok c hc).2]
    · simp only [Bool.and_eq_true, decide_eq_true_eq]
      refine ⟨⟨⟨hlen, by simp⟩, hSa⟩, hallS⟩
  have step4 : netlocSplit ('/' :: '/' :: ((d0 :: n2) ++ PA)) = (d0 :: n2, PA) := by
    have hsatN : ∀ x ∈ d0 :: n2, (fun c => !isNetlocDelim c) x = true := by
      intro x hx
      simp [(hNok x hx).1]
    simp only [netlocSplit, pyStartsWith_slash2, if_pos, List.drop_succ_cons, List.drop_zero]
    rcases hPA with rfl | ⟨t, rfl⟩
    · rw [List.append_nil, takeWhile_all_sat hsatN, dropWhile_all_sat hsatN]
    · rw [takeWhile_append_sat hsatN (by decide), dropWhile_append_sat hsatN (by decide)]
  have hsatPAh : ∀ x ∈ PA, (fun c => decide (c ≠ '#')) x = true := by
    intro x hx
    simpa using (hPAok x hx).2.1
  have hsatPAq : ∀ x ∈ PA, (fun c => decide (c ≠ '?')) x = true := by
    intro x hx
    simpa using (hPAok x hx).1
  have step5 : urlsplitE ((c0 :: s2) ++ ':' :: '/' :: '/' :: ((d0 :: n2) ++ PA)) =
      .ok ⟨c0 :: s2, d0 :: n2, PA, [], []⟩ := by
    simp only [urlsplitE, step1, step2, step3, step4]
    rw [if_neg hNbr]
    rw [takeWhile_all_sat hsatPAh, takeWhile_all_sat hsatPAq,
      dropWhile_all_sat hsatPAq, dropWhile_all_sat hsatPAh]
    simp
  have hPAfix : pathAdjust PA = PA := by
    rcases hPA with rfl | ⟨t, rfl⟩
    · rfl
    · exact pathAdjust_slash t
  rw [normalize_product_url, step5]
  simp only [Except.map, List.isEmpty_cons, Bool.false_eq_true, if_false]
  rw [urlunsplit_shape, hPAfix]

theorem normalize_product_url_idem {x y : Str} (h : normalize_product_url x = .ok y) :
    normalize_product_url y = .ok y := by
  obtain ⟨p, hp, hy⟩ := normalize_ok_eq h
  obtain ⟨hsch, halpha, hnet, hbr, hpath⟩ := urlsplit_ok_inv hp
  obtain ⟨c0, s2, hS, hSa, hSok⟩ := defScheme_facts _ hsch halpha
  obtain ⟨d0, n2, hN, hNok, hNbr⟩ := defNetloc_facts _ hnet hbr
  have hy2 : y = defScheme p.scheme ++ ':' :: '/' :: '/' ::
      (defNetloc p.netloc ++ pathAdjust p.path) := by
    rw [hy, hS, hN, urlunsplit_shape]
  rw [hy2]
  refine normalize_reparse _ _ _ ⟨c0, s2, hS, hSa⟩ hSok
    (by rw [hN]; exact List.cons_ne_nil _ _) hNok hNbr (pathAdjust_cases _) ?_
  intro c hc
  rcases mem_pathAdjust hc with rfl | hc
  · exact ⟨by decide, by decide, by decide, by decide, by decide⟩
  · exact hpath c hc

/-- An absolute URL: a non-empty scheme followed by `://`. -/
def isAbsUrl (u : Str) : Prop :=
  ∃ s rest, s ≠ [] ∧ u = s ++ ':' :: '/' :: '/' :: rest

/-- C6: `normalize_product_url` is idempotent (re-normalizing any
successful output returns it unchanged), and two URLs whose parses
agree on scheme, netloc and path — i.e. differ only in query and/or
fragment — normalize to the same ProductURL. -/
theorem c6_normalize_idempotent_query_insensitive :
    (∀ x y : Str, normalize_product_url x = .ok y → normalize_product_url y = .ok y) ∧
    (∀ u1 u2 : Str, ∀ p1 p2 : SplitResult, urlsplitE u1 = .ok p1 → urlsplitE u2 = .ok p2 →
      p1.scheme = p2.scheme → p1.netloc = p2.netloc → p1.path = p2.path →
      normalize_product_url u1 = normalize_product_url u2) := by
  refine ⟨fun x y h => normalize_product_url_idem h, ?_⟩
  intro u1 u2 p1 p2 h1 h2 hs hn hp
  rw [normalize_product_url, normalize_product_url, h1, h2]
  simp only [Except.map]
  rw [hs, hn, hp]

/-- Concrete instance of C6: a product URL with a query string and the
same URL with a fragment normalize to the same ProductURL, and
re-normalizing that result is the identity. -/
theorem c6_witness :
    normalize_product_url "https://www.walmart.com/ip/123?a=1".toList =
      normalize_product_url "https://www.walmart.com/ip/123#frag".toList ∧
    normalize_product_url "https://www.walmart.com/ip/123".toList =
      .ok "https://www.walmart.com/ip/123".toList := by
  constructor
  · exact c6_normalize_idempotent_query_insensitive.2 _ _
      ⟨"https".toList, "www.walmart.com".toList, "/ip/123".toList, "a=1".toList, []⟩
      ⟨"https".toList, "www.walmart.com".toList, "/ip/123".toList, [], "frag".toList⟩
      (by decide) (by decide) rfl rfl rfl
  · exact c6_normalize_idempotent_query_insensitive.1
      "https://www.walmart.com/ip/123?a=1".toList
      "https://www.walmart.com/ip/123".toList (by decide)

/-- C7: the anchor normalization of `get_link` is total: it always
returns an absolute URL, and whenever the underlying parse raises, it
returns the naive strip-and-reprefix fallback. -/
theorem c7_normalize_total_fallback :
    (∀ href : Str, isAbsUrl (canonicalOf href)) ∧
    (∀ href : Str, ∀ e : Unit, normalize_product_url (canonicalInput href) = .error e →
      canonicalOf href = WALMART ++ stripQF href) := by
  constructor
  · intro href
    rw [canonicalOf]
    cases hn : normalize_product_url (canonicalInput href) with
    | ok c =>
      obtain ⟨p, hp, hy⟩ := normalize_ok_eq hn
      obtain ⟨hsch, halpha, hnet, hbr, _⟩ := urlsplit_ok_inv hp
      obtain ⟨c0, s2, hS, _, _⟩ := defScheme_facts _ hsch halpha
      obtain ⟨d0, n2, hN, _, _⟩ := defNetloc_facts _ hnet hbr
      refine ⟨c0 :: s2, (d0 :: n2) ++ pathAdjust p.path, List.cons_ne_nil _ _, ?_⟩
      rw [hy, hS, hN, urlunsplit_shape]
    | error e =>
      exact ⟨"https".toList, "www.walmart.com".toList ++ stripQF href, by decide, rfl⟩
  · intro href e h
    rw [canonicalOf, h]

/-- Concrete instance of C7: a href whose parse raises
`ValueError("Invalid IPv6 URL")` still normalizes, to the naive
fallback. -/
theorem c7_witness :
    normalize_product_url (canonicalInput "http://[/ip/x".toList) = .error () ∧
    canonicalOf "http://[/ip/x".toList = WALMART ++ stripQF "http://[/ip/x".toList := by
  refine ⟨by decide, ?_⟩
  exact c7_normalize_total_fallback.2 _ () (by decide)

theorem stripQF_chars {c : Char} {p : Str} (h : c ∈ stripQF p) : c ≠ '?' ∧ c ≠ '#' := by
  rw [stripQF, splitHead, splitHead] at h
  obtain ⟨h1, h2⟩ := mem_takeWhile h
  obtain ⟨h3, _⟩ := mem_takeWhile h2
  exact ⟨by simpa using h3, by simpa using h1⟩

theorem walmart_chars : ∀ c ∈ WALMART, c ≠ '?' ∧ c ≠ '#' := by
  intro c hc
  have hc2 : c ∈ ['h', 't', 't', 'p', 's', ':', '/', '/', 'w', 'w', 'w', '.', 'w', 'a', 'l',
      'm', 'a', 'r', 't', '.', 'c', 'o', 'm'] := hc
  fin_cases hc2 <;> exact ⟨by decide, by decide⟩

theorem canonicalOf_chars (href : Str) : ∀ c ∈ canonicalOf href, c ≠ '?' ∧ c ≠ '#' := by
  intro c hc
  rw [canonicalOf] at hc
  cases hn : normalize_product_url (canonicalInput href) with
  | ok y =>
    rw [hn] at hc
    exact normalize_ok_chars hn c hc
  | error e =>
    rw [hn] at hc
    rcases List.mem_append.mp hc with hc | hc
    · exact walmart_chars c hc
    · exact stripQF_chars hc

theorem mem_candidate_urls {pg : SearchPage} {u : Str} (h : u ∈ candidate_urls pg) :
    (∃ href, u = canonicalOf href) ∨ (∃ m, u = WALMART ++ stripQF m) := by
  rw [candidate_urls] at h
  split at h
  · right
    rw [textual_urls] at h
    obtain ⟨m, _, hm⟩ := List.mem_filterMap.mp h
    have hm2 : (if pyStartsWith (stripQF m) "/ip/".toList = true then
        some (WALMART ++ stripQF m) else none) = some u := hm
    split at hm2
    · exact ⟨m, (Option.some.injEq _ _ |>.mp hm2).symm⟩
    · simp at hm2
  · left
    rw [structural_urls] at h
    obtain ⟨href, _, hh⟩ := List.mem_map.mp h
    exact ⟨href, hh.symm⟩

/-- C5: the URL list `get_link` returns contains no `?` or `#`
character in any URL, has no duplicates, and lists URLs in the order
of their first occurrence among the extracted candidates (document
order). -/
theorem c5_get_link_output_invariant (pg : SearchPage) :
    (∀ u ∈ get_link_urls pg, '?' ∉ u ∧ '#' ∉ u) ∧
    (get_link_urls pg).Nodup ∧
    (get_link_urls pg).Pairwise
      (fun a b => firstIdx (candidate_urls pg) a < firstIdx (candidate_urls pg) b) := by
  refine ⟨?_, dedupe_nodup _ _, dedupe_pairwise _ _⟩
  intro u hu
  have hc := (mem_dedupe.mp hu).1
  have hchars : ∀ c ∈ u, c ≠ '?' ∧ c ≠ '#' := by
    rcases mem_candidate_urls hc with ⟨href, rfl⟩ | ⟨m, rfl⟩
    · exact canonicalOf_chars href
    · intro c hcc
      rcases List.mem_append.mp hcc with hcc | hcc
      · exact walmart_chars c hcc
      · exact stripQF_chars hcc
  constructor
  · intro hq
    exact absurd rfl (hchars _ hq).1
  · intro hq
    exact absurd rfl (hchars _ hq).2

/-- C2: the textual fallback is consulted exactly when the structural
strategy yields zero URLs; when the structural strategy yields at
least one URL the output is the deduplication of the structural list
alone, so it contains only structurally extracted URLs. -/
theorem c2_get_link_fallback_iff (pg : SearchPage) :
    (structural_urls pg.anchors = [] →
      get_link_urls pg = dedupe (textual_urls pg.raw) []) ∧
    (structural_urls pg.anchors ≠ [] →
      get_link_urls pg = dedupe (structural_urls pg.anchors) [] ∧
      ∀ u ∈ get_link_urls pg, u ∈ structural_urls pg.anchors) := by
  constructor
  · intro h
    rw [get_link_urls, candidate_urls, if_pos (by simp [h])]
  · intro h
    have hne : ¬(structural_urls pg.anchors).isEmpty = true := by
      simpa using h
    have heq : get_link_urls pg = dedupe (structural_urls pg.anchors) [] := by
      rw [get_link_urls, candidate_urls, if_neg hne]
    refine ⟨heq, ?_⟩
    intro u hu
    rw [heq] at hu
    exact (mem_dedupe.mp hu).1

/-- A search page whose DOM has one qualifying anchor. -/
def pageWithAnchor : SearchPage :=
  ⟨"<html><a href=\"/ip/123?q=1\">x</a></html>".toList, ["/ip/123?q=1".toList]⟩

/-- A search page with no anchors whose raw text embeds a product path
inside script JSON. -/
def pageScriptOnly : SearchPage :=
  ⟨"<html><script>\"link\":\"/ip/999?x=1\"</script></html>".toList, []⟩

/-- Concrete instance of C2: with a qualifying anchor the output is the
deduplicated structural list; with zero anchors it is the deduplicated
textual list, which is non-empty exactly because the fallback ran. -/
theorem c2_witness :
    structural_urls pageWithAnchor.anchors ≠ [] ∧
    get_link_urls pageWithAnchor = dedupe (structural_urls pageWithAnchor.anchors) [] ∧
    structural_urls pageScriptOnly.anchors = [] ∧
    get_link_urls pageScriptOnly = dedupe (textual_urls pageScriptOnly.raw) [] ∧
    get_link_urls pageScriptOnly = ["https://www.walmart.com/ip/999".toList] := by
  refine ⟨by decide, ((c2_get_link_fallback_iff pageWithAnchor).2 (by decide)).1, rfl,
    (c2_get_link_fallback_iff pageScriptOnly).1 rfl, by decide⟩

/-- Concrete instance of C5 at `pageWithAnchor`. -/
theorem c5_witness :
    "https://www.walmart.com/ip/123".toList ∈ get_link_urls pageWithAnchor ∧
    '?' ∉ "https://www.walmart.com/ip/123".toList ∧
    '#' ∉ "https://www.walmart.com/ip/123".toList ∧
    (get_link_urls pageWithAnchor).Nodup := by
  have h := c5_get_link_output_invariant pageWithAnchor
  have hmem : "https://www.walmart.com/ip/123".toList ∈ get_link_urls pageWithAnchor := by decide
  exact ⟨hmem, (h.1 _ hmem).1, (h.1 _ hmem).2, h.2.1⟩

theorem collect_pages_error (pre : List (Except Unit (List Str))) (e : Unit)
    (post : List (Except Unit (List Str))) (maxR : Nat) :
    ∀ acc, collect_pages acc (pre ++ .error e :: post) maxR = collect_pages acc pre maxR := by
  induction pre with
  | nil => intro acc; rfl
  | cons x rest ih =>
    intro acc
    cases x with
    | error e2 => rfl
    | ok urls =>
      rw [List.cons_append, collect_pages, collect_pages]
      split
      · rfl
      · exact ih _

theorem prod_results_foldl (f : Str → Except PErr RecordDict) :
    ∀ (l : List Str) (res : List RecordDict),
      (l.foldl (fun res url =>
        match f url with
        | .ok info => res ++ [dictAdd info "url".toList (.jstr url)]
        | .error _ => res) res).length =
      res.length + (l.filter (fun u => fetchOk (f u))).length := by
  intro l
  induction l with
  | nil => intro res; simp
  | cons u rest ih =>
    intro res
    rw [List.foldl_cons, List.filter_cons]
    cases hf : f u with
    | ok info =>
      rw [ih]
      simp [fetchOk, hf]
      omega
    | error e =>
      rw [ih]
      simp [fetchOk, hf]

theorem filter_length_split (p : Str → Bool) :
    ∀ l : List Str, (l.filter p).length + (l.filter (fun a => !p a)).length = l.length := by
  intro l
  induction l with
  | nil => rfl
  | cons a rest ih =>
    rw [List.filter_cons, List.filter_cons]
    cases hp : p a <;> simp [hp] <;> omega

/-- C4: a failed search-page fetch (challenge or network error) is
terminal for the paging loop — pages after the first failure
contribute nothing — while per-URL failures in the product phase are
skipped individually: the result length is the number of successful
URLs, so with exactly one failing URL among N (within the result
budget) the batch yields N−1 records. -/
theorem c4_error_propagation :
    (∀ (pre post : List (Except Unit (List Str))) (e : Unit) (maxR : Nat),
      collect_urls (pre ++ .error e :: post) maxR = collect_urls pre maxR) ∧
    (∀ (urls : List Str) (maxR : Nat) (f : Str → Except PErr RecordDict),
      (prod_results urls maxR f).length =
        ((urls.take maxR).filter (fun u => fetchOk (f u))).length) ∧
    (∀ (urls : List Str) (maxR : Nat) (f : Str → Except PErr RecordDict),
      urls.length ≤ maxR →
      (urls.filter (fun u => !fetchOk (f u))).length = 1 →
      (prod_results urls maxR f).length = urls.length - 1) := by
  have hlen : ∀ (urls : List Str) (maxR : Nat) (f : Str → Except PErr RecordDict),
      (prod_results urls maxR f).length =
        ((urls.take maxR).filter (fun u => fetchOk (f u))).length := by
    intro urls maxR f
    rw [prod_results, prod_results_foldl]
    simp
  refine ⟨fun pre post e maxR => collect_pages_error pre e post maxR [], hlen, ?_⟩
  intro urls maxR f hle h1
  rw [hlen, List.take_of_length_le hle]
  have := filter_length_split (fun u => fetchOk (f u)) urls
  omega

/-- The per-URL outcome function of the C4 witness: the middle URL
fails with a challenge, the others succeed. -/
def c4FetchEx : Str → Except PErr RecordDict := fun u =>
  if u = "https://www.walmart.com/ip/2".toList then .error .challenge else .ok []

/-- Concrete instance of C4: a failing second search page freezes the
collected URLs at those of page one, and one failing product URL among
three yields two records. -/
theorem c4_witness :
    collect_urls [.ok ["https://www.walmart.com/ip/1".toList], .error (),
        .ok ["https://www.walmart.com/ip/9".toList]] 10 =
      collect_urls [.ok ["https://www.walmart.com/ip/1".toList]] 10 ∧
    (prod_results ["https://www.walmart.com/ip/1".toList,
        "https://www.walmart.com/ip/2".toList,
        "https://www.walmart.com/ip/3".toList] 10 c4FetchEx).length = 3 - 1 := by
  constructor
  · exact c4_error_propagation.1 [.ok ["https://www.walmart.com/ip/1".toList]]
      [.ok ["https://www.walmart.com/ip/9".toList]] () 10
  · exact c4_error_propagation.2.2 _ 10 c4FetchEx (by decide) (by decide)

/-- C1: when the `__NEXT_DATA__` strategy succeeds (valid, parseable
framework JSON), `prod_info` returns exactly its record, whatever the
ld+json blocks contain — strategy 2 is never consulted. -/
theorem c1_strategy_priority (p : ProductPage) (t : Str) (r : RecordDict)
    (hbot : is_bot_page p.raw = false) (hnext : p.nextData = some t)
    (hparse : parse_next_data t = some r) :
    prod_info p = .ok r ∧ ∀ ld, prod_info ⟨p.raw, p.nextData, ld⟩ = .ok r := by
  have ht : t.isEmpty = false := by
    cases t with
    | nil =>
      rw [show parse_next_data [] = none from rfl] at hparse
      exact Option.noConfusion hparse
    | cons a b => rfl
  have hs1 : strat1 p = some r := by
    rw [strat1, hnext]
    show (if t.isEmpty = true then none else parse_next_data t) = some r
    rw [ht]
    simpa using hparse
  constructor
  · rw [prod_info, if_neg (by rw [hbot]; exact Bool.false_ne_true), hs1]
  · intro ld
    have hs1b : strat1 ⟨p.raw, p.nextData, ld⟩ = some r := by
      rw [strat1] at hs1 ⊢
      exact hs1
    rw [prod_info, if_neg (by rw [hbot]; exact Bool.false_ne_true), hs1b]

/-- A concrete schema.org ld+json payload with a Product item that has
no `aggregateRating`. -/
def ldJsonEx : Str :=
  "[\x7b\"@type\": \"Product\", \"name\": \"LD Name\", \"offers\": \x7b\"price\": 123\x7d\x7d]".toList

/-- The record strategy 2 extracts from `ldJsonEx`: note the null
`rating` and `review_count`. -/
def recS2Ex : RecordDict :=
  mkRecord (.jstr "LD Name".toList) (.jnum 123 0) .jnull .jnull (.jstr "N/A".toList)
    (.jstr []) .jnull .jnull

theorem sanity_s2 : s2_scripts [ldJsonEx] = .found recS2Ex := rfl

/-- A product page carrying valid data in both the `__NEXT_DATA__`
shape and the ld+json shape. -/
def bothPage : ProductPage :=
  ⟨"<html><script id=\"__NEXT_DATA__\">".toList ++ nextJsonEx ++
    "</script><script type=\"application/ld+json\">".toList ++ ldJsonEx ++
    "</script></html>".toList,
   some nextJsonEx, [ldJsonEx]⟩

/-- Concrete instance of C1: on a page where both strategies would
succeed, `prod_info` returns strategy 1's record, which differs from
strategy 2's record. -/
theorem c1_witness :
    prod_info bothPage = .ok recS1Ex ∧
    s2_scripts bothPage.ldJson = .found recS2Ex ∧
    dlookup recS1Ex "name".toList = some (.jstr "Apple iPhone".toList) ∧
    dlookup recS2Ex "name".toList = some (.jstr "LD Name".toList) := by
  refine ⟨?_, sanity_s2, rfl, rfl⟩
  exact (c1_strategy_priority bothPage nextJsonEx recS1Ex (by decide) rfl sanity_s1).1

theorem mkRecord_keys (a b c d e f g h : JValue) :
    (mkRecord a b c d e f g h).map Prod.fst = RECORD_KEYS := rfl

theorem dlookup_mkRecord_model (a b c d e f g h : JValue) :
    dlookup (mkRecord a b c d e f g h) "model".toList = some e := by
  rw [mkRecord, dlookup, if_neg (by decide), dlookup, if_neg (by decide), dlookup,
    if_neg (by decide), dlookup, if_neg (by decide), dlookup, if_pos (by decide)]

theorem dlookup_mkRecord_rating (a b c d e f g h : JValue) :
    dlookup (mkRecord a b c d e f g h) "rating".toList = some g := by
  rw [mkRecord, dlookup, if_neg (by decide), dlookup, if_neg (by decide), dlookup,
    if_neg (by decide), dlookup, if_neg (by decide), dlookup, if_neg (by decide), dlookup,
    if_neg (by decide), dlookup, if_pos (by decide)]

theorem dlookup_mkRecord_review_count (a b c d e f g h : JValue) :
    dlookup (mkRecord a b c d e f g h) "review_count".toList = some h := by
  rw [mkRecord, dlookup, if_neg (by decide), dlookup, if_neg (by decide), dlookup,
    if_neg (by decide), dlookup, if_neg (by decide), dlookup, if_neg (by decide), dlookup,
    if_neg (by decide), dlookup, if_neg (by decide), dlookup, if_pos (by decide)]

theorem bindE {α β : Type} {x : Option α} {f : α → Option β} {b : β}
    (h : (x >>= f) = some b) : ∃ a, x = some a ∧ f a = some b := by
  cases x with
  | none => simp at h
  | some a => exact ⟨a, rfl, by simpa using h⟩

theorem s1_build_shape {product reviews : JValue} {r : RecordDict}
    (h : s1_build product reviews = some r) :
    ∃ a b c d e f g k, r = mkRecord a b c d e f g k := by
  rw [s1_build] at h
  obtain ⟨n, -, h⟩ := bindE h
  obtain ⟨pI, -, h⟩ := bindE h
  obtain ⟨cP, -, h⟩ := bindE h
  obtain ⟨pr, -, h⟩ := bindE h
  obtain ⟨av, -, h⟩ := bindE h
  obtain ⟨b1, -, h⟩ := bindE h
  obtain ⟨b2, -, h⟩ := bindE h
  obtain ⟨mo, -, h⟩ := bindE h
  obtain ⟨f1, -, h⟩ := bindE h
  obtain ⟨f2, -, h⟩ := bindE h
  obtain ⟨r1, -, h⟩ := bindE h
  obtain ⟨r2, -, h⟩ := bindE h
  obtain ⟨c1, -, h⟩ := bindE h
  obtain ⟨c2, -, h⟩ := bindE h
  exact ⟨_, _, _, _, _, _, _, _, (Option.some.injEq _ _ |>.mp h).symm⟩

theorem s2_record_shape (fs ags : RecordDict) :
    ∃ a b c d e f g k, s2_record fs ags = mkRecord a b c d e f g k :=
  ⟨_, _, _, _, _, _, _, _, rfl⟩

theorem s2_build_found {fs : RecordDict} {r : RecordDict} (h : s2_build fs = .found r) :
    ∃ ags, r = s2_record fs ags := by
  rw [s2_build] at h
  split at h
  · next ags _ => exact ⟨ags, (S2Res.found.injEq _ _ |>.mp h).symm⟩
  · exact absurd h (by intro hc; cases hc)

theorem s2_item_found {item : JValue} {r : RecordDict} (h : s2_item item = some (.found r)) :
    ∃ fs, s2_build fs = .found r := by
  cases item with
  | jobj fs =>
    rw [s2_item] at h
    split at h
    · split at h
      · exact ⟨fs, Option.some.injEq _ _ |>.mp h⟩
      · cases h
    · have := Option.some.injEq _ _ |>.mp h
      cases this
  | jnull => cases h
  | jbool b => cases h
  | jnum m e => cases h
  | jstr s => cases h
  | jarr xs => cases h

theorem s2_items_found : ∀ {items : List JValue} {r : RecordDict},
    s2_items items = .found r → ∃ fs, s2_build fs = .found r := by
  intro items
  induction items with
  | nil => intro r h; rw [s2_items] at h; cases h
  | cons item rest ih =>
    intro r h
    rw [s2_items] at h
    cases hi : s2_item item with
    | none => rw [hi] at h; exact ih h
    | some res =>
      rw [hi] at h
      cases res with
      | found r0 =>
        have hr : r0 = r := S2Res.found.injEq _ _ |>.mp h
        exact s2_item_found (hr ▸ hi)
      | crash => cases h
      | nothing => cases h

theorem s2_scripts_found : ∀ {scripts : List Str} {r : RecordDict},
    s2_scripts scripts = .found r → ∃ fs, s2_build fs = .found r := by
  intro scripts
  induction scripts with
  | nil => intro r h; rw [s2_scripts] at h; cases h
  | cons t rest ih =>
    intro r h
    rw [s2_scripts] at h
    split at h
    · exact ih h
    · split at h
      · exact ih h
      · split at h
        · next r0 heq => exact s2_items_found (heq.trans (congrArg S2Res.found
            (S2Res.found.injEq _ _ |>.mp h)))
        · cases h
        · exact ih h

theorem parse_next_data_shape {t : Str} {r : RecordDict} (h : parse_next_data t = some r) :
    ∃ a b c d e f g k, r = mkRecord a b c d e f g k := by
  rw [parse_next_data] at h
  obtain ⟨data, -, h⟩ := bindE h
  obtain ⟨initial, -, h⟩ := bindE h
  obtain ⟨product, -, h⟩ := bindE h
  obtain ⟨reviews0, -, h⟩ := bindE h
  split at h
  · cases h
  · exact s1_build_shape h

theorem s3_fields_shape {product initial : JValue} {r : RecordDict}
    (h : s3_fields product initial = some r) :
    ∃ a b c d e f g k, r = mkRecord a b c d e f g k := by
  rw [s3_fields] at h
  obtain ⟨n, -, h⟩ := bindE h
  obtain ⟨pI, -, h⟩ := bindE h
  obtain ⟨cP, -, h⟩ := bindE h
  obtain ⟨pr, -, h⟩ := bindE h
  obtain ⟨av, -, h⟩ := bindE h
  obtain ⟨br, -, h⟩ := bindE h
  obtain ⟨mo, -, h⟩ := bindE h
  obtain ⟨fe, -, h⟩ := bindE h
  obtain ⟨re, -, h⟩ := bindE h
  obtain ⟨ra, -, h⟩ := bindE h
  obtain ⟨rc, -, h⟩ := bindE h
  exact ⟨_, _, _, _, _, _, _, _, (Option.some.injEq _ _ |>.mp h).symm⟩

theorem s3_build_shape {cand : JValue} {r : RecordDict} (h : s3_build cand = some r) :
    ∃ a b c d e f g k, r = mkRecord a b c d e f g k := by
  rw [s3_build] at h
  obtain ⟨initial, -, h⟩ := bindE h
  obtain ⟨product, -, h⟩ := bindE h
  split at h
  · cases h
  · exact s3_fields_shape h

theorem strat1_some {p : ProductPage} {r : RecordDict} (h : strat1 p = some r) :
    ∃ t, parse_next_data t = some r := by
  rw [strat1] at h
  split at h
  · split at h
    · cases h
    · exact ⟨_, h⟩
  · cases h

theorem strat3_some {raw : Str} {r : RecordDict} (h : strat3 raw = some r) :
    ∃ cand, s3_build cand = some r := by
  rw [strat3] at h
  split at h
  · split at h
    · split at h
      · cases h
      · exact ⟨_, h⟩
    · cases h
  · cases h

/-- Every record `prod_info` can return is one of the three
strategies' `mkRecord` literals. -/
theorem prod_info_mkRecord {p : ProductPage} {r : RecordDict} (h : prod_info p = .ok r) :
    ∃ a b c d e f g k, r = mkRecord a b c d e f g k := by
  rw [prod_info] at h
  split at h
  · cases h
  · split at h
    · next r0 heq =>
      obtain ⟨t, ht⟩ := strat1_some heq
      cases h
      exact parse_next_data_shape ht
    · split at h
      · next r0 heq =>
        obtain ⟨fs, hfs⟩ := s2_scripts_found heq
        obtain ⟨ags, hags⟩ := s2_build_found hfs
        cases h
        obtain ⟨a, b, c, d, e, f, g, k, hmk⟩ := s2_record_shape fs ags
        exact ⟨a, b, c, d, e, f, g, k, hags.trans hmk⟩
      · cases h
      · split at h
        · next r0 heq =>
          obtain ⟨cand, hc⟩ := strat3_some heq
          cases h
          exact s3_build_shape hc
        · cases h

theorem hasKey_false_lookup {fs : RecordDict} {k : Str} (h : dictHasKey fs k = false) :
    dlookup fs k = none := by
  cases hl : dlookup fs k with
  | none => rfl
  | some v =>
    rw [dictHasKey, hl] at h
    cases h

theorem pyGetD_jobj (fs : RecordDict) (k : Str) (d : JValue) :
    pyGetD (.jobj fs) k d = some ((dlookup fs k).getD d) := rfl

/-- Strategy 1's `model` field defaults to `"N/A"` when the product
object lacks `modelNumber`. -/
theorem s1_model_default {fs : RecordDict} {rev : JValue} {r : RecordDict}
    (h : s1_build (.jobj fs) rev = some r)
    (hk : dictHasKey fs "modelNumber".toList = false) :
    dlookup r "model".toList = some (.jstr "N/A".toList) := by
  rw [s1_build] at h
  obtain ⟨n, -, h⟩ := bindE h
  obtain ⟨pI, -, h⟩ := bindE h
  obtain ⟨cP, -, h⟩ := bindE h
  obtain ⟨pr, -, h⟩ := bindE h
  obtain ⟨av, -, h⟩ := bindE h
  obtain ⟨b1, -, h⟩ := bindE h
  obtain ⟨b2, -, h⟩ := bindE h
  obtain ⟨mo, hmo, h⟩ := bindE h
  obtain ⟨f1, -, h⟩ := bindE h
  obtain ⟨f2, -, h⟩ := bindE h
  obtain ⟨r1, -, h⟩ := bindE h
  obtain ⟨r2, -, h⟩ := bindE h
  obtain ⟨c1, -, h⟩ := bindE h
  obtain ⟨c2, -, h⟩ := bindE h
  have hr : mkRecord n pr av (pyOr b1 b2) mo (pyOr f1 f2) (pyOr r1 r2) (pyOr c1 c2) = r :=
    Option.some.injEq _ _ |>.mp h
  have hmo2 : mo = .jstr "N/A".toList := by
    rw [pyGetD_jobj, hasKey_false_lookup hk] at hmo
    exact (Option.some.injEq _ _ |>.mp hmo).symm
  rw [← hr, dlookup_mkRecord_model, hmo2]

/-- Strategy 1's `review_count` defaults to `0` when the product
object lacks both `numReviews` and `reviewCount`. -/
theorem s1_review_count_default {fs : RecordDict} {rev : JValue} {r : RecordDict}
    (h : s1_build (.jobj fs) rev = some r)
    (hk1 : dictHasKey fs "numReviews".toList = false)
    (hk2 : dictHasKey fs "reviewCount".toList = false) :
    dlookup r "review_count".toList = some (.jnum 0 0) := by
  rw [s1_build] at h
  obtain ⟨n, -, h⟩ := bindE h
  obtain ⟨pI, -, h⟩ := bindE h
  obtain ⟨cP, -, h⟩ := bindE h
  obtain ⟨pr, -, h⟩ := bindE h
  obtain ⟨av, -, h⟩ := bindE h
  obtain ⟨b1, -, h⟩ := bindE h
  obtain ⟨b2, -, h⟩ := bindE h
  obtain ⟨mo, -, h⟩ := bindE h
  obtain ⟨f1, -, h⟩ := bindE h
  obtain ⟨f2, -, h⟩ := bindE h
  obtain ⟨r1, -, h⟩ := bindE h
  obtain ⟨r2, -, h⟩ := bindE h
  obtain ⟨c1, hc1, h⟩ := bindE h
  obtain ⟨c2, hc2, h⟩ := bindE h
  have hr : mkRecord n pr av (pyOr b1 b2) mo (pyOr f1 f2) (pyOr r1 r2) (pyOr c1 c2) = r :=
    Option.some.injEq _ _ |>.mp h
  have hc1e : c1 = .jnum 0 0 := by
    rw [pyGetD_jobj, hasKey_false_lookup hk1] at hc1
    exact (Option.some.injEq _ _ |>.mp hc1).symm
  have hc2e : c2 = .jnum 0 0 := by
    rw [pyGetD_jobj, hasKey_false_lookup hk2] at hc2
    exact (Option.some.injEq _ _ |>.mp hc2).symm
  rw [← hr, dlookup_mkRecord_review_count, hc1e, hc2e]
  rfl

/-- Strategy 2's `model` field defaults to `"N/A"` when the item lacks
`sku`. -/
theorem s2_model_default {fs r : RecordDict} (h : s2_build fs = .found r)
    (hk : dictHasKey fs "sku".toList = false) :
    dlookup r "model".toList = some (.jstr "N/A".toList) := by
  obtain ⟨ags, hags⟩ := s2_build_found h
  rw [hags]
  rw [show dlookup (s2_record fs ags) "model".toList =
    some ((dlookup fs "sku".toList).getD (.jstr "N/A".toList)) from
    dlookup_mkRecord_model _ _ _ _ _ _ _ _]
  rw [hasKey_false_lookup hk]
  rfl

/-- Strategy 3's `model` field defaults to `"N/A"` and its
`review_count` to `0` when the product object lacks the source keys. -/
theorem s3_defaults {fs : RecordDict} {initial : JValue} {r : RecordDict}
    (h : s3_fields (.jobj fs) initial = some r)
    (hk : dictHasKey fs "modelNumber".toList = false)
    (hn : dictHasKey fs "numReviews".toList = false) :
    dlookup r "model".toList = some (.jstr "N/A".toList) ∧
    dlookup r "review_count".toList = some (.jnum 0 0) := by
  rw [s3_fields] at h
  obtain ⟨n, -, h⟩ := bindE h
  obtain ⟨pI, -, h⟩ := bindE h
  obtain ⟨cP, -, h⟩ := bindE h
  obtain ⟨pr, -, h⟩ := bindE h
  obtain ⟨av, -, h⟩ := bindE h
  obtain ⟨br, -, h⟩ := bindE h
  obtain ⟨mo, hmo, h⟩ := bindE h
  obtain ⟨fe, -, h⟩ := bindE h
  obtain ⟨re, -, h⟩ := bindE h
  obtain ⟨ra, -, h⟩ := bindE h
  obtain ⟨rc, hrc, h⟩ := bindE h
  have hr : mkRecord n pr av br mo fe ra rc = r := Option.some.injEq _ _ |>.mp h
  have hmo2 : mo = .jstr "N/A".toList := by
    rw [pyGetD_jobj, hasKey_false_lookup hk] at hmo
    exact (Option.some.injEq _ _ |>.mp hmo).symm
  have hrc2 : rc = .jnum 0 0 := by
    rw [pyGetD_jobj, hasKey_false_lookup hn] at hrc
    exact (Option.some.injEq _ _ |>.mp hrc).symm
  constructor
  · rw [← hr, dlookup_mkRecord_model, hmo2]
  · rw [← hr, dlookup_mkRecord_review_count, hrc2]

/-- C3 (amended): every record any strategy returns carries exactly
the keys `name, price, availability, brand, model, features, rating,
review_count` in that order; `model` defaults to `"N/A"` when the
source object lacks `modelNumber` (strategies 1 and 3) or `sku`
(strategy 2); `review_count` defaults to `0` when the count keys are
absent in strategies 1 and 3. -/
theorem c3_record_shape :
    (∀ (p : ProductPage) (r : RecordDict), prod_info p = .ok r →
      r.map Prod.fst = RECORD_KEYS) ∧
    (∀ (fs : RecordDict) (rev : JValue) (r : RecordDict),
      s1_build (.jobj fs) rev = some r →
      (dictHasKey fs "modelNumber".toList = false →
        dlookup r "model".toList = some (.jstr "N/A".toList)) ∧
      (dictHasKey fs "numReviews".toList = false →
        dictHasKey fs "reviewCount".toList = false →
        dlookup r "review_count".toList = some (.jnum 0 0))) ∧
    (∀ (fs r : RecordDict), s2_build fs = .found r →
      dictHasKey fs "sku".toList = false →
      dlookup r "model".toList = some (.jstr "N/A".toList)) ∧
    (∀ (fs : RecordDict) (initial : JValue) (r : RecordDict),
      s3_fields (.jobj fs) initial = some r →
      dictHasKey fs "modelNumber".toList = false →
      dictHasKey fs "numReviews".toList = false →
      dlookup r "model".toList = some (.jstr "N/A".toList) ∧
      dlookup r "review_count".toList = some (.jnum 0 0)) := by
  refine ⟨?_, ?_, ?_, ?_⟩
  · intro p r h
    obtain ⟨a, b, c, d, e, f, g, k, hr⟩ := prod_info_mkRecord h
    rw [hr, mkRecord_keys]
  · intro fs rev r h
    exact ⟨fun hk => s1_model_default h hk, fun h1 h2 => s1_review_count_default h h1 h2⟩
  · intro fs r h hk
    exact s2_model_default h hk
  · intro fs initial r h hk hn
    exact s3_defaults h hk hn

/-- A product page carrying only the ld+json payload. -/
def ldPage : ProductPage :=
  ⟨"<html><script type=\"application/ld+json\">".toList ++ ldJsonEx ++
    "</script></html>".toList, none, [ldJsonEx]⟩

theorem ldPage_prod_info : prod_info ldPage = .ok recS2Ex := by
  have hbot : is_bot_page ldPage.raw = false := by decide
  rw [prod_info, if_neg (by rw [hbot]; exact Bool.false_ne_true)]
  rw [show strat1 ldPage = none from rfl]
  rw [show s2_scripts ldPage.ldJson = .found recS2Ex from sanity_s2]

/-- Counterexample to C3 as stated: on a page whose only structured
data is an ld+json Product without `aggregateRating`, the extracted
record's `review_count` is `null`, not the claimed default `0` (and
`rating` is likewise `null`). -/
theorem c3_counterexample :
    prod_info ldPage = .ok recS2Ex ∧
    dlookup recS2Ex "review_count".toList = some .jnull ∧
    dlookup recS2Ex "rating".toList = some .jnull ∧
    (JValue.jnull = JValue.jnum 0 0 → False) :=
  ⟨ldPage_prod_info, rfl, rfl, fun hc => JValue.noConfusion hc⟩

/-- The parsed fields of the one ld+json item on `ldPage`. -/
def ldItemFields : RecordDict :=
  [("@type".toList, .jstr "Product".toList), ("name".toList, .jstr "LD Name".toList),
   ("offers".toList, .jobj [("price".toList, .jnum 123 0)])]

theorem sanity_s2_build : s2_build ldItemFields = .found recS2Ex := rfl

/-- Concrete instance of the amended C3: the strategy-2 record of the
counterexample page carries all eight keys in order, with `model`
defaulted to `"N/A"`. -/
theorem c3_witness :
    (recS2Ex.map Prod.fst = RECORD_KEYS) ∧
    dlookup recS2Ex "model".toList = some (.jstr "N/A".toList) := by
  constructor
  · exact c3_record_shape.1 ldPage recS2Ex ldPage_prod_info
  · exact c3_record_shape.2.2.1 _ _ sanity_s2_build (by decide)

/-- C10: when the page text does not contain the literal `{"props"`
marker, the heuristic strategy can never produce a record — even if
`"product":` occurs — so if strategies 1 and 2 also fail, extraction
fails with the sample-carrying error. -/
theorem c10_heuristic_needs_props :
    (∀ raw : Str, ¬ OccursIn "\x7b\"props\"".toList raw → strat3 raw = none) ∧
    (∀ p : ProductPage, is_bot_page p.raw = false →
      ¬ OccursIn "\x7b\"props\"".toList p.raw →
      strat1 p = none → s2_scripts p.ldJson = .nothing →
      prod_info p = .error (.noData (sampleOf p.raw))) := by
  have hs3 : ∀ raw : Str, ¬ OccursIn "\x7b\"props\"".toList raw → strat3 raw = none := by
    intro raw hocc
    have hfind : pyFind raw "\x7b\"props\"".toList = none := by
      cases hf : pyFind raw "\x7b\"props\"".toList with
      | none => rfl
      | some i =>
        exfalso
        apply hocc
        refine (pyIn_iff _ _).mp ?_
        rw [pyIn, hf]
        rfl
    rw [strat3]
    split
    · rw [hfind]
    · rfl
  refine ⟨hs3, ?_⟩
  intro p hbot hocc h1 h2
  rw [prod_info, if_neg (by rw [hbot]; exact Bool.false_ne_true), h1, h2, hs3 p.raw hocc]

/-- A product page whose text mentions `"product":` but carries no
`{"props"` marker and no structured data. -/
def prodMarkerPage : ProductPage :=
  ⟨"<div>\"product\": 1</div>".toList, none, []⟩

/-- Concrete instance of C10: `"product":` present, `{"props"` absent,
strategies 1 and 2 failing — extraction fails with the sample error. -/
theorem c10_witness :
    pyIn "\"product\":".toList prodMarkerPage.raw = true ∧
    prod_info prodMarkerPage = .error (.noData (sampleOf prodMarkerPage.raw)) := by
  constructor
  · decide
  · refine c10_heuristic_needs_props.2 prodMarkerPage (by decide) ?_ rfl rfl
    intro hocc
    have := (pyIn_iff _ _).mpr hocc
    rw [show pyIn "\x7b\"props\"".toList prodMarkerPage.raw = false from by decide] at this
    exact Bool.noConfusion this

/-- A character that fails `p` survives `dropWhile p`. -/
theorem mem_dropWhile_of_not {p : Char → Bool} {c : Char} (hp : p c = false) :
    ∀ {l : Str}, c ∈ l → c ∈ l.dropWhile p := by
  intro l
  induction l with
  | nil => intro h; cases h
  | cons a t ih =>
    intro h
    rw [List.dropWhile_cons]
    cases hpa : p a with
    | true =>
      rw [if_pos rfl]
      rcases List.mem_cons.mp h with rfl | ht
      · rw [hp] at hpa; exact Bool.noConfusion hpa
      · exact ih ht
    | false =>
      rw [if_neg Bool.false_ne_true]
      exact h

/-- `strip()` of a list holding a non-whitespace character is non-empty. -/
theorem pyStrip_ne_nil {l : Str} (h : ∃ c ∈ l, pyIsSpace c = false) :
    pyStrip l ≠ [] := by
  obtain ⟨c, hc, hcs⟩ := h
  rw [pyStrip]
  intro heq
  have h2 : ((l.dropWhile pyIsSpace).reverse.dropWhile pyIsSpace) = [] :=
    List.reverse_eq_nil_iff.mp heq
  have hmem : c ∈ (l.dropWhile pyIsSpace).reverse :=
    List.mem_reverse.mpr (mem_dropWhile_of_not hcs hc)
  have := List.dropWhile_eq_nil_iff.mp h2 c hmem
  rw [hcs] at this
  exact Bool.noConfusion this

/-- `dropWhile` never lengthens a list. -/
theorem length_dropWhile_le (p : Char → Bool) :
    ∀ l : Str, (l.dropWhile p).length ≤ l.length := by
  intro l
  induction l with
  | nil => exact Nat.le_refl _
  | cons a t ih =>
    rw [List.dropWhile_cons]
    cases hpa : p a with
    | true => rw [if_pos rfl]; exact Nat.le_succ_of_le ih
    | false => rw [if_neg Bool.false_ne_true]

/-- `strip()` never lengthens a list. -/
theorem pyStrip_length_le (l : Str) : (pyStrip l).length ≤ l.length := by
  rw [pyStrip, List.length_reverse]
  calc ((l.dropWhile pyIsSpace).reverse.dropWhile pyIsSpace).length
      ≤ (l.dropWhile pyIsSpace).reverse.length := length_dropWhile_le _ _
    _ = (l.dropWhile pyIsSpace).length := List.length_reverse _
    _ ≤ l.length := length_dropWhile_le _ _

/-- The diagnostic sample is at most 1200 characters long. -/
theorem sampleOf_length_le (raw : Str) : (sampleOf raw).length ≤ 1200 := by
  rw [sampleOf]
  calc (pyStrip ((raw.take 1200).map fun c => if c = '\n' then ' ' else c)).length
      ≤ ((raw.take 1200).map fun c => if c = '\n' then ' ' else c).length :=
        pyStrip_length_le _
    _ = (raw.take 1200).length := List.length_map _ _
    _ = min 1200 raw.length := List.length_take _ _
    _ ≤ 1200 := Nat.min_le_left _ _

/-- A non-whitespace, non-newline character in the first 1200 characters
keeps the diagnostic sample non-empty. -/
theorem sampleOf_ne_nil {raw : Str} (c : Char) (hc : c ∈ raw.take 1200)
    (hcs : pyIsSpace c = false) (hcn : c ≠ '\n') : sampleOf raw ≠ [] := by
  rw [sampleOf]
  apply pyStrip_ne_nil
  exact ⟨c, List.mem_map.mpr ⟨c, hc, by rw [if_neg hcn]⟩, hcs⟩

/-- C9 (amended): when extraction fails with the no-structured-data
error, the carried sample is exactly `sampleOf` of the page text, of
length at most 1200, and non-empty whenever the first 1200 characters
hold a non-whitespace character other than a newline (an all-whitespace
prefix yields an EMPTY sample, contrary to the original claim);
conversely the error is raised exactly when the bot gate and all three
strategies fail. -/
theorem c9_nodata_sample :
    (∀ (p : ProductPage) (s : Str), prod_info p = .error (.noData s) →
      s = sampleOf p.raw ∧ s.length ≤ 1200 ∧
      ∀ c ∈ p.raw.take 1200, pyIsSpace c = false → c ≠ '\n' → s ≠ []) ∧
    (∀ p : ProductPage, is_bot_page p.raw = false → strat1 p = none →
      s2_scripts p.ldJson = .nothing → strat3 p.raw = none →
      prod_info p = .error (.noData (sampleOf p.raw))) := by
  constructor
  · intro p s h
    have hs : s = sampleOf p.raw := by
      rw [prod_info] at h
      split at h
      · simp at h
      · split at h
        · simp at h
        · split at h
          · simp at h
          · simp at h
          · split at h
            · simp at h
            · simp at h
              exact h.symm
    subst hs
    refine ⟨rfl, sampleOf_length_le p.raw, ?_⟩
    intro c hc hcs hcn
    exact sampleOf_ne_nil c hc hcs hcn
  · intro p hbot h1 h2 h3
    rw [prod_info, if_neg (by rw [hbot]; exact Bool.false_ne_true), h1, h2, h3]

/-- `lower()` fixes a run of spaces. -/
theorem lowerStr_replicate_space (n : Nat) :
    lowerStr (List.replicate n ' ') = List.replicate n ' ' := by
  rw [lowerStr, List.map_replicate, show lowerChar ' ' = ' ' from by decide]

/-- No string holding a non-space character occurs in a run of spaces. -/
theorem pyIn_replicate_space {needle : Str} {n : Nat} (c : Char)
    (hc : c ∈ needle) (hcs : c ≠ ' ') :
    pyIn needle (List.replicate n ' ') = false := by
  cases hin : pyIn needle (List.replicate n ' ') with
  | false => rfl
  | true =>
    have hmem := occursIn_subset ((pyIn_iff _ _).mp hin) c hc
    exact absurd (List.eq_of_mem_replicate hmem) hcs

/-- A page of 1201 spaces passes the bot gate. -/
theorem blank_not_bot : is_bot_page (List.replicate 1201 ' ') = false := by
  have htext : lowerStr ((List.replicate 1201 ' ').take 2000)
      = List.replicate 1201 ' ' := by
    rw [List.take_replicate, show min 2000 1201 = 1201 from by norm_num,
      lowerStr_replicate_space]
  simp only [is_bot_page, htext]
  rw [BOT_CHECK_KEYWORDS]
  simp only [List.any_cons, List.any_nil, Bool.or_eq_false_iff]
  refine ⟨pyIn_replicate_space 'a' (by decide) (by decide),
    pyIn_replicate_space 'c' (by decide) (by decide),
    pyIn_replicate_space 'b' (by decide) (by decide),
    pyIn_replicate_space 'p' (by decide) (by decide),
    pyIn_replicate_space 'v' (by decide) (by decide),
    pyIn_replicate_space 'r' (by decide) (by decide),
    pyIn_replicate_space 'a' (by decide) (by decide),
    ⟨pyIn_replicate_space 'u' (by decide) (by decide), trivial⟩⟩

/-- The heuristic strategy yields nothing on a page of 1201 spaces. -/
theorem blank_strat3 : strat3 (List.replicate 1201 ' ') = none := by
  have hin : pyIn "\"product\":".toList (List.replicate 1201 ' ') = false :=
    pyIn_replicate_space '"' (by decide) (by decide)
  rw [strat3, if_neg (by rw [hin]; exact Bool.false_ne_true)]

/-- The diagnostic sample of a page of 1201 spaces is empty. -/
theorem blank_sample : sampleOf (List.replicate 1201 ' ') = [] := by
  rw [sampleOf, List.take_replicate, show min 1200 1201 = 1200 from by norm_num,
    List.map_replicate,
    show (if (' ' : Char) = '\n' then ' ' else ' ') = ' ' from by decide,
    pyStrip]
  have hd : List.dropWhile pyIsSpace (List.replicate 1200 ' ') = [] :=
    dropWhile_all_sat (fun x hx => by rw [List.eq_of_mem_replicate hx]; decide)
  rw [hd]
  rfl

/-- A non-empty product page made entirely of spaces, with no
`__NEXT_DATA__` block and no ld+json scripts. -/
def blankPage : ProductPage := ⟨List.replicate 1201 ' ', none, []⟩

/-- Extraction on the all-space page raises the error with an empty
sample. -/
theorem blankPage_prod_info : prod_info blankPage = .error (.noData []) := by
  have hraw : blankPage.raw = List.replicate 1201 ' ' := rfl
  rw [prod_info, hraw, if_neg (by rw [blank_not_bot]; exact Bool.false_ne_true),
    show strat1 blankPage = none from rfl,
    show s2_scripts blankPage.ldJson = .nothing from rfl,
    blank_strat3, blank_sample]

/-- C9 counterexample: the 1201-space page is non-empty and defeats the
bot gate and all three strategies, yet the no-structured-data error it
raises carries an EMPTY sample — refuting the claim that a non-empty
page always yields a non-empty sample. -/
theorem c9_counterexample :
    blankPage.raw ≠ [] ∧ prod_info blankPage = .error (.noData []) := by
  refine ⟨?_, blankPage_prod_info⟩
  intro h
  have hlen := congrArg List.length h
  rw [show blankPage.raw = List.replicate 1201 ' ' from rfl,
    List.length_replicate] at hlen
  exact Nat.noConfusion hlen

/-- Concrete instance of amended C9: a small ordinary page raises the
error carrying its own non-empty sample. -/
theorem c9_witness :
    prod_info ⟨"<div>x</div>".toList, none, []⟩
      = .error (.noData (sampleOf "<div>x</div>".toList)) ∧
    sampleOf "<div>x</div>".toList ≠ [] := by
  have h := c9_nodata_sample.2 ⟨"<div>x</div>".toList, none, []⟩
    (by decide) rfl rfl rfl
  refine ⟨h, ?_⟩
  have h1 := c9_nodata_sample.1 ⟨"<div>x</div>".toList, none, []⟩ _ h
  exact h1.2.2 '<' (by decide) (by decide) (by decide)
